import Mathlib

/-!
Shallow embedding of the CME-detection core of the Aditya CME detector
repository (files `src/detection/cme_detector.py` and
`src/processing/feature_engineering.py`), together with theorems settling
the frozen specification claims.

Machine reals (numpy/pandas float64) are modelled as `ℚ`; library numeric
routines whose float values no claim depends on (`np.sqrt`, `np.sin`,
`scipy.signal.welch`, calendar decompositions of timestamps) are abstracted
as an explicit `NumLib` record of functions, and the fitted-model scoring
routines of scikit-learn (`IsolationForest.decision_function`,
`OneClassSVM.decision_function`, `RandomForestClassifier.predict_proba`)
as an `MLCores` record: the repository's own control flow, state updates
and arithmetic around them are embedded concretely. `np.random` is
abstracted as an `Rng` record of sampling functions.
-/

namespace CME

/-- Error outcomes of the embedded operations.  `notTrained` is the
`ValueError("Models must be trained before prediction")` guard (the spec
calls it `NotTrainedError`), `notFitted` is scikit-learn's
`NotFittedError`, `valueError` and `indexError` are the corresponding
Python exception classes, and `invalidInput` is the `InvalidInputError`
named by the spec (no code path of the repository raises it). -/
inductive Err
  | notTrained
  | notFitted
  | valueError
  | indexError
  | invalidInput
deriving DecidableEq, Repr

/-- Equality of embedded operation results is decidable, so the closed
theorems below can be checked by evaluation. -/
instance {ε α : Type} [DecidableEq ε] [DecidableEq α] : DecidableEq (Except ε α) := by
  intro x y
  cases x <;> cases y
  case error.error a b =>
    exact if h : a = b then .isTrue (by rw [h]) else .isFalse (by simp [h])
  case error.ok a b => exact .isFalse (by simp)
  case ok.error a b => exact .isFalse (by simp)
  case ok.ok a b =>
    exact if h : a = b then .isTrue (by rw [h]) else .isFalse (by simp [h])

/-! ## `CMEDetector._group_consecutive_detections` (cme_detector.py lines 231-247) -/

/-- Loop body of `_group_consecutive_detections`: `prev` is `indices[i-1]`,
`cur` the group under construction, `groups` the finished groups. -/
def groupLoop (maxGap : ℤ) (prev : ℤ) (cur : List ℤ) (groups : List (List ℤ)) :
    List ℤ → List (List ℤ)
  | [] => groups ++ [cur]
  | x :: xs =>
    if x - prev ≤ maxGap then groupLoop maxGap x (cur ++ [x]) groups xs
    else groupLoop maxGap x [x] (groups ++ [cur]) xs

/-- `CMEDetector._group_consecutive_detections(indices, max_gap)`: groups
detection indices into runs whose consecutive elements differ by at most
`max_gap` (default 10 in the source). -/
def group_consecutive_detections (indices : List ℤ) (maxGap : ℤ) : List (List ℤ) :=
  match indices with
  | [] => []
  | x :: xs => groupLoop maxGap x [x] [] xs


/-! ## Data model -/

/-- A pandas cell holding a timestamp: `raw` is a not-yet-parsed value (for
example a string column), `dt` a `datetime64` value.  The payload is the
time it denotes, modelled as an integer number of epoch seconds;
`pd.to_datetime` turns `raw v` into `dt v` and is the identity on `dt v`. -/
inductive TsVal
  | raw (v : ℤ)
  | dt (v : ℤ)
deriving DecidableEq, Repr

/-- `pd.to_datetime` on one timestamp cell. -/
def parseTs : TsVal → TsVal
  | .raw v => .dt v
  | .dt v => .dt v

/-- The instant a timestamp cell denotes (epoch seconds), used for sorting. -/
def tsKey : TsVal → ℤ
  | .raw v => v
  | .dt v => v

/-- One row of the caller's telemetry table (schema of §3 of the spec and of
the ingestion modules). -/
structure PRow where
  timestamp : TsVal
  proton_flux : ℚ
  electron_flux : ℚ
  alpha_flux : ℚ
  velocity : ℚ
  temperature : ℚ
  density : ℚ
  magnetic_field_magnitude : ℚ
deriving DecidableEq, Repr

/-- The caller's telemetry table, in the caller's row order. -/
abbrev PTable := List PRow

/-! ## 3-vector / 3x3-matrix arithmetic for the Mahalanobis feature -/

/-- A row of the three flux columns. -/
structure Vec3 where
  x : ℚ
  y : ℚ
  z : ℚ
deriving DecidableEq, Repr

/-- A 3x3 matrix with rational entries (the flux sample covariance and its
pseudo-inverse are symmetric 3x3 matrices). -/
structure Mat3 where
  a11 : ℚ
  a12 : ℚ
  a13 : ℚ
  a21 : ℚ
  a22 : ℚ
  a23 : ℚ
  a31 : ℚ
  a32 : ℚ
  a33 : ℚ
deriving DecidableEq, Repr

/-- Scale a 3x3 matrix. -/
def smul3 (c : ℚ) (m : Mat3) : Mat3 where
  a11 := c * m.a11
  a12 := c * m.a12
  a13 := c * m.a13
  a21 := c * m.a21
  a22 := c * m.a22
  a23 := c * m.a23
  a31 := c * m.a31
  a32 := c * m.a32
  a33 := c * m.a33

/-- Entrywise sum of two 3x3 matrices. -/
def add3 (A B : Mat3) : Mat3 where
  a11 := A.a11 + B.a11
  a12 := A.a12 + B.a12
  a13 := A.a13 + B.a13
  a21 := A.a21 + B.a21
  a22 := A.a22 + B.a22
  a23 := A.a23 + B.a23
  a31 := A.a31 + B.a31
  a32 := A.a32 + B.a32
  a33 := A.a33 + B.a33

/-- Matrix product of two 3x3 matrices. -/
def mul3 (A B : Mat3) : Mat3 where
  a11 := A.a11 * B.a11 + A.a12 * B.a21 + A.a13 * B.a31
  a12 := A.a11 * B.a12 + A.a12 * B.a22 + A.a13 * B.a32
  a13 := A.a11 * B.a13 + A.a12 * B.a23 + A.a13 * B.a33
  a21 := A.a21 * B.a11 + A.a22 * B.a21 + A.a23 * B.a31
  a22 := A.a21 * B.a12 + A.a22 * B.a22 + A.a23 * B.a32
  a23 := A.a21 * B.a13 + A.a22 * B.a23 + A.a23 * B.a33
  a31 := A.a31 * B.a11 + A.a32 * B.a21 + A.a33 * B.a31
  a32 := A.a31 * B.a12 + A.a32 * B.a22 + A.a33 * B.a32
  a33 := A.a31 * B.a13 + A.a32 * B.a23 + A.a33 * B.a33

/-- Transpose of a 3x3 matrix. -/
def transpose3 (A : Mat3) : Mat3 :=
  ⟨A.a11, A.a21, A.a31, A.a12, A.a22, A.a32, A.a13, A.a23, A.a33⟩

/-- Trace of a 3x3 matrix. -/
def trace3 (A : Mat3) : ℚ := A.a11 + A.a22 + A.a33

/-- The 3x3 identity matrix. -/
def id3 : Mat3 := ⟨1, 0, 0, 0, 1, 0, 0, 0, 1⟩

/-- `M` is the Moore-Penrose pseudo-inverse of `A`: the four Penrose
identities, decidable for concrete rational matrices and satisfied by a
unique matrix (`pinv_unique` below). -/
def isPinv (A M : Mat3) : Prop :=
  mul3 (mul3 A M) A = A ∧ mul3 (mul3 M A) M = M ∧
    transpose3 (mul3 A M) = mul3 A M ∧ transpose3 (mul3 M A) = mul3 M A

/-- Decidability of the Penrose identities. -/
instance (A M : Mat3) : Decidable (isPinv A M) := by
  unfold isPinv; infer_instance

/-- Decell's finite algorithm for the Moore-Penrose pseudo-inverse of a
3x3 matrix, via the Faddeev-LeVerrier characteristic-polynomial sequence
of `A·Aᵀ` — an exact rational computation.  It serves as the concrete
instantiation of the library pseudo-inverse routine in the closed
witnesses, where the Penrose identities are checked by evaluation at the
matrices involved; no general correctness theorem is claimed or needed. -/
def pinv3 (A : Mat3) : Mat3 :=
  let B := mul3 A (transpose3 A)
  let c1 := -(trace3 B)
  let B2 := mul3 B (add3 B (smul3 c1 id3))
  let c2 := -(trace3 B2) / 2
  let B3 := mul3 B (add3 B2 (smul3 c2 id3))
  let c3 := -(trace3 B3) / 3
  if c3 ≠ 0 then
    smul3 (-c3⁻¹)
      (mul3 (transpose3 A) (add3 (add3 (mul3 B B) (smul3 c1 B)) (smul3 c2 id3)))
  else if c2 ≠ 0 then
    smul3 (-c2⁻¹) (mul3 (transpose3 A) (add3 B (smul3 c1 id3)))
  else if c1 ≠ 0 then smul3 (-c1⁻¹) (transpose3 A)
  else ⟨0, 0, 0, 0, 0, 0, 0, 0, 0⟩

/-- Quadratic form `vᵀ M v` (the squared Mahalanobis distance before
`np.sqrt`). -/
def quadForm (m : Mat3) (v : Vec3) : ℚ :=
  v.x * (m.a11 * v.x + m.a12 * v.y + m.a13 * v.z)
  + v.y * (m.a21 * v.x + m.a22 * v.y + m.a23 * v.z)
  + v.z * (m.a31 * v.x + m.a32 * v.y + m.a33 * v.z)

/-- Mean of a list of 3-vectors (`flux_data.mean().values`). -/
def meanVec3 (rows : List Vec3) : Vec3 where
  x := (rows.map (·.x)).sum / (rows.length : ℚ)
  y := (rows.map (·.y)).sum / (rows.length : ℚ)
  z := (rows.map (·.z)).sum / (rows.length : ℚ)

/-- Entry of the sample covariance of two coordinates with one delta
degree of freedom (`np.cov` default). -/
def covEntry (rows : List Vec3) (f g : Vec3 → ℚ) : ℚ :=
  let mf := (rows.map f).sum / (rows.length : ℚ)
  let mg := (rows.map g).sum / (rows.length : ℚ)
  (rows.map (fun r => (f r - mf) * (g r - mg))).sum / ((rows.length : ℚ) - 1)

/-- `np.cov(flux_data.T)`: the 3x3 sample covariance of the flux rows. -/
def cov3 (rows : List Vec3) : Mat3 where
  a11 := covEntry rows (·.x) (·.x)
  a12 := covEntry rows (·.x) (·.y)
  a13 := covEntry rows (·.x) (·.z)
  a21 := covEntry rows (·.y) (·.x)
  a22 := covEntry rows (·.y) (·.y)
  a23 := covEntry rows (·.y) (·.z)
  a31 := covEntry rows (·.z) (·.x)
  a32 := covEntry rows (·.z) (·.y)
  a33 := covEntry rows (·.z) (·.z)

/-- Numeric library routines used by the pipeline whose float values no
claim depends on: they are abstracted as arbitrary functions so that the
repository's own control flow around them is what the theorems are about.
`sqrtA` is `np.sqrt`, `sinA` is `np.sin`, `piA` the float constant
`np.pi`, `hourOf`/`dayOfYear` the pandas calendar decomposition of a
timestamp, `welch nperseg data` the `(freqs, psd)` pair returned by
`scipy.signal.welch`, and `pinvA` the SVD-based `np.linalg.pinv`, total
on every finite matrix (singular ones included); where a claim speaks of
the Moore-Penrose pseudo-inverse, its theorem assumes `pinvA` returns a
matrix satisfying the Penrose identities — numpy's documented behavior —
exactly as the width theorems assume `np.random.uniform`'s documented
range. -/
structure NumLib where
  sqrtA : ℚ → ℚ
  sinA : ℚ → ℚ
  piA : ℚ
  hourOf : ℤ → ℚ
  dayOfYear : ℤ → ℚ
  welch : ℕ → List ℚ → List ℚ × List ℚ
  pinvA : Mat3 → Mat3

/-- Fitted-model scoring routines of scikit-learn, abstracted as functions
of the stored fit data: `ifScore`/`svmScore` are the `decision_function`
of `IsolationForest` and `OneClassSVM` given the data they were fitted on,
and `rfProb fit row c` is the probability `RandomForestClassifier`
assigns to class `c` for `row` after being fitted on `fit`. -/
structure MLCores where
  ifScore : List (List ℚ) → List ℚ → ℚ
  svmScore : List (List ℚ) → List ℚ → ℚ
  rfProb : List (List ℚ) × List ℚ → List ℚ → ℚ → ℚ

/-- The global `np.random` sampler, abstracted: `uniform a b` models
`np.random.uniform(a, b)` and `normal m s` models `np.random.normal(m, s)`.
No claim depends on the distribution, only (for widths) on the documented
range of `uniform`. -/
structure Rng where
  uniform : ℚ → ℚ → ℚ
  normal : ℚ → ℚ → ℚ

/-- An engineered feature table (the output of `engineer_features`, or any
`features_df` passed to the detector): `n` rows, a list of column names, a
timestamp column (epoch seconds, already datetime-typed), and a total cell
function.  `col c i` is meaningful for `c ∈ cols` and `i < n`. -/
structure FTable where
  n : ℕ
  cols : List String
  ts : ℕ → ℤ
  col : String → ℕ → ℚ

/-- `features_df.get(c, dflt)`-style access used by `_create_cme_event`
(`peak_data.get`) — the default is returned when the column is absent. -/
def fget (df : FTable) (c : String) (dflt : ℚ) (i : ℕ) : ℚ :=
  if c ∈ df.cols then df.col c i else dflt

/-- CME classification assigned by `_create_cme_event`. -/
inductive CmeType
  | halo
  | pHalo
  | nonHalo
deriving DecidableEq, Repr

/-- The event record built by `_create_cme_event`.  The source's string
`id` (`SWIS_` plus the peak timestamp formatted to second precision) is
modelled by the peak timestamp itself; `source` and `status` are the
constant tags. -/
structure CmeEvent where
  idTs : ℤ
  timestamp : ℤ
  ctype : CmeType
  velocity : ℚ
  width : ℚ
  acceleration : ℚ
  confidence : ℚ
  source : String
  status : String
  lat : ℚ
  lon : ℚ
  magnitude : ℚ
deriving DecidableEq, Repr

/-! ## Rolling-window and fill primitives (feature_engineering.py) -/

/-- The window of a pandas `rolling(window=w, min_periods=1)` at row `i`:
the last `w` elements ending at `i` (fewer near the start). -/
def windowSlice (l : List ℚ) (w i : ℕ) : List ℚ :=
  (l.take (i + 1)).drop (i + 1 - w)

/-- `series.rolling(window=w, min_periods=1).mean()`. -/
def rollingMean (w : ℕ) (l : List ℚ) : List ℚ :=
  (List.range l.length).map (fun i =>
    let s := windowSlice l w i
    s.sum / (s.length : ℚ))

/-- `series.diff(periods=p)`: `none` models the leading NaNs. -/
def diffP (p : ℕ) (l : List ℚ) : List (Option ℚ) :=
  (List.range l.length).map (fun i =>
    if p ≤ i then some (l.getD i 0 - l.getD (i - p) 0) else none)

/-- Sample variance with one delta degree of freedom (pandas `.std()`
before the square root). -/
def sampleVar (s : List ℚ) : ℚ :=
  let m := s.sum / (s.length : ℚ)
  (s.map (fun x => (x - m) ^ 2)).sum / ((s.length : ℚ) - 1)

/-- `series.rolling(window=w, min_periods=1).std()`: a single-sample window
yields NaN (`none`) because pandas uses one delta degree of freedom. -/
def rollingStd (lib : NumLib) (w : ℕ) (l : List ℚ) : List (Option ℚ) :=
  (List.range l.length).map (fun i =>
    let s := windowSlice l w i
    if s.length ≤ 1 then none else some (lib.sqrtA (sampleVar s)))

/-- `series.rolling(window=w, min_periods=1).quantile(0.95)` with pandas'
linear interpolation between order statistics. -/
def rollingQuantile95 (w : ℕ) (l : List ℚ) : List ℚ :=
  (List.range l.length).map (fun i =>
    let s := windowSlice l w i
    let sorted := s.mergeSort (fun a b => decide (a ≤ b))
    let pos : ℚ := (19 : ℚ) / 20 * ((s.length : ℚ) - 1)
    let lo : ℕ := pos.floor.toNat
    let frac : ℚ := pos - (pos.floor : ℚ)
    sorted.getD lo 0 + frac * (sorted.getD (lo + 1) (sorted.getD lo 0) - sorted.getD lo 0))

/-- First `some` value of a column suffix, used by backward fill. -/
def nextValid : List (Option ℚ) → Option ℚ
  | [] => none
  | some v :: _ => some v
  | none :: xs => nextValid xs

/-- `fillna(method='bfill')` on one column. -/
def bfill : List (Option ℚ) → List (Option ℚ)
  | [] => []
  | x :: xs => (match x with | some v => some v | none => nextValid xs) :: bfill xs

/-- `fillna(method='ffill')` on one column, carrying the last valid value. -/
def ffillFrom (prev : Option ℚ) : List (Option ℚ) → List (Option ℚ)
  | [] => []
  | some v :: xs => some v :: ffillFrom (some v) xs
  | none :: xs => prev :: ffillFrom prev xs

/-- The final `fillna(method='bfill').fillna(method='ffill').fillna(0)`
pass of `engineer_features` on one column. -/
def fillChain (l : List (Option ℚ)) : List ℚ :=
  (ffillFrom none (bfill l)).map (fun x => x.getD 0)

/-! ## The Mahalanobis feature of `create_anomaly_features` -/

/-- The Mahalanobis block of `create_anomaly_features`
(feature_engineering.py lines 144-163): with strictly more rows than the
three flux columns it computes, per row, the distance
`np.sqrt(diff.T @ inv_cov @ diff)` from the column means under the
library pseudo-inverse of the sample covariance; with at most as many
rows as flux columns the column is zero-filled.  With total rational
cells and a total pseudo-inverse routine the `try` block cannot raise
(`np.linalg.pinv` succeeds on every finite matrix, singular ones
included), so the `except` zero-fill path is unreachable in the
embedding. -/
def mahalanobisColumn (lib : NumLib) (rows : List Vec3) : List ℚ :=
  if 3 < rows.length then
    let ic := lib.pinvA (cov3 rows)
    let mv := meanVec3 rows
    rows.map (fun r => lib.sqrtA (quadForm ic ⟨r.x - mv.x, r.y - mv.y, r.z - mv.z⟩))
  else rows.map (fun _ => 0)

/-! ## `FeatureEngineer` (feature_engineering.py) -/

/-- `np.argmax`: position of the first maximum of a list (0 for `[]`,
where numpy would raise — never reached with a nonempty argument). -/
def argmaxFirst : List ℚ → ℕ
  | [] => 0
  | [_] => 0
  | x :: y :: ys =>
    let j := argmaxFirst (y :: ys)
    if (y :: ys).getD j 0 ≤ x then 0 else j + 1

/-- `timestamp.diff().dt.total_seconds().fillna(0)` over the sorted
timestamp column. -/
def timeDelta (ts : List ℤ) : List ℚ :=
  (List.range ts.length).map (fun i =>
    if i = 0 then (0 : ℚ) else ((ts.getD i 0 - ts.getD (i - 1) 0 : ℤ) : ℚ))

/-- The six flux / solar-wind columns that receive moving averages and
gradients: source column name, prefix of the generated feature names, and
accessor.  The prefixes follow the source's f-strings: the magnetic-field
features are named `magnetic_field_ma_w` / `magnetic_field_grad_w`
(lines 59 and 78) although they are computed from the
`magnetic_field_magnitude` column. -/
def smoothedColumns : List (String × String × (PRow → ℚ)) :=
  [("proton_flux", "proton_flux", (·.proton_flux)),
   ("electron_flux", "electron_flux", (·.electron_flux)),
   ("alpha_flux", "alpha_flux", (·.alpha_flux)),
   ("velocity", "velocity", (·.velocity)),
   ("temperature", "temperature", (·.temperature)),
   ("magnetic_field_magnitude", "magnetic_field", (·.magnetic_field_magnitude))]

/-- The window lists of `FeatureEngineer.__init__`.  The source reads them
with `config.get('detection.features.moving_average_windows', [5,10,30,60])`
and analogously for the others — a plain `dict.get` with a dotted key,
which never matches a nested YAML key, so the defaults below are always
used. -/
def moving_avg_windows : List ℕ := [5, 10, 30, 60]

/-- Gradient lag list (see `moving_avg_windows` for why the default is
always used). -/
def gradient_windows : List ℕ := [1, 5, 15]

/-- Statistical window list (see `moving_avg_windows`). -/
def statistical_windows : List ℕ := [60, 180, 360]

/-- Original telemetry columns of the sorted table, as engineered-table
columns. -/
def baseCols (s : List PRow) : List (String × List (Option ℚ)) :=
  smoothedColumns.map (fun nc => (nc.1, s.map (fun r => some (nc.2.2 r))))
    ++ [("density", s.map (fun r => some r.density))]

/-- `create_time_features` (lines 20-32): hour, day-of-year, solar-cycle
phase `sin(2π·day_of_year/365.25)` and inter-sample time delta. -/
def timeCols (lib : NumLib) (ts : List ℤ) : List (String × List (Option ℚ)) :=
  [("hour", ts.map (fun t => some (lib.hourOf t))),
   ("day_of_year", ts.map (fun t => some (lib.dayOfYear t))),
   ("solar_cycle_phase",
     ts.map (fun t => some (lib.sinA (2 * lib.piA * lib.dayOfYear t / ((1461 : ℚ) / 4))))),
   ("time_delta", (timeDelta ts).map some)]

/-- `create_moving_averages` (lines 34-63): rolling means with
`min_periods=1` for each window and smoothed column. -/
def maCols (s : List PRow) : List (String × List (Option ℚ)) :=
  moving_avg_windows.flatMap (fun w =>
    smoothedColumns.map (fun nc =>
      (nc.2.1 ++ "_ma_" ++ toString w, (rollingMean w (s.map nc.2.2)).map some)))

/-- `create_gradients` (lines 65-80): lagged differences for each lag and
smoothed column; the leading `lag` entries are NaN. -/
def gradCols (s : List PRow) : List (String × List (Option ℚ)) :=
  gradient_windows.flatMap (fun w =>
    smoothedColumns.map (fun nc =>
      (nc.2.1 ++ "_grad_" ++ toString w, diffP w (s.map nc.2.2))))

/-- `create_statistical_features` (lines 82-109): per statistical window,
rolling standard deviations for proton flux and velocity, the
proton/electron flux quotient of the shortest-window moving averages
(the same values are stored once per window name), and rolling 95th
percentiles. -/
def statCols (lib : NumLib) (s : List PRow) : List (String × List (Option ℚ)) :=
  statistical_windows.flatMap (fun w =>
    [("proton_flux_std_" ++ toString w, rollingStd lib w (s.map (·.proton_flux))),
     ("velocity_std_" ++ toString w, rollingStd lib w (s.map (·.velocity))),
     ("proton_electron_" ++ "ratio_" ++ toString w,
       (List.zipWith (fun p e => p / (e + 1 / 1000000))
         (rollingMean (moving_avg_windows.foldr min 5) (s.map (·.proton_flux)))
         (rollingMean (moving_avg_windows.foldr min 5) (s.map (·.electron_flux)))).map some),
     ("proton_flux_p95_" ++ toString w,
       (rollingQuantile95 w (s.map (·.proton_flux))).map some),
     ("velocity_p95_" ++ toString w,
       (rollingQuantile95 w (s.map (·.velocity))).map some)])

/-- `create_spectral_features` (lines 111-132): for proton flux, velocity
and magnetic-field magnitude, with at least 64 rows the Welch power
spectral density yields the dominant non-DC frequency, its power, and the
total power as constant columns; below 64 rows the three columns are
zero.  The `fillna(mean)` applied before `welch` is the identity here
because telemetry cells are total. -/
def spectralCols (lib : NumLib) (s : List PRow) : List (String × List (Option ℚ)) :=
  ([("proton_flux", (·.proton_flux)), ("velocity", (·.velocity)),
    ("magnetic_field_magnitude", (·.magnetic_field_magnitude))]
      : List (String × (PRow → ℚ))).flatMap (fun nc =>
    let v := s.map nc.2
    let n := s.length
    if 64 ≤ n then
      let fp := lib.welch (min 64 (n / 4)) v
      let idx := argmaxFirst (fp.2.drop 1) + 1
      [(nc.1 ++ "_dominant_freq", List.replicate n (some (fp.1.getD idx 0))),
       (nc.1 ++ "_dominant_power", List.replicate n (some (fp.2.getD idx 0))),
       (nc.1 ++ "_total_power", List.replicate n (some fp.2.sum))]
    else
      [(nc.1 ++ "_dominant_freq", List.replicate n (some 0)),
       (nc.1 ++ "_dominant_power", List.replicate n (some 0)),
       (nc.1 ++ "_total_power", List.replicate n (some 0))])

/-- One rolling z-score column of `create_anomaly_features`: 60-sample
rolling mean and standard deviation, `(x − mean)/(std + 1e-6)`; the first
row is NaN because the single-sample rolling std is NaN. -/
def zscoreColumn (lib : NumLib) (v : List ℚ) : List (Option ℚ) :=
  (List.range v.length).map (fun i =>
    match (rollingStd lib 60 v).getD i none with
    | none => none
    | some σ => some ((v.getD i 0 - (rollingMean 60 v).getD i 0) / (σ + 1 / 1000000)))

/-- `create_anomaly_features` (lines 134-165): z-scores for the five
listed columns and the flux Mahalanobis column.  The `fillna(mean)` on
the flux block is the identity because telemetry cells are total. -/
def anomalyCols (lib : NumLib) (s : List PRow) : List (String × List (Option ℚ)) :=
  ([("proton_flux", (·.proton_flux)), ("electron_flux", (·.electron_flux)),
    ("alpha_flux", (·.alpha_flux)), ("velocity", (·.velocity)),
    ("temperature", (·.temperature))] : List (String × (PRow → ℚ))).map
    (fun nc => (nc.1 ++ "_zscore", zscoreColumn lib (s.map nc.2)))
  ++ [("flux_mahalanobis_distance",
        (mahalanobisColumn lib
          (s.map (fun r => ⟨r.proton_flux, r.electron_flux, r.alpha_flux⟩))).map some)]

/-- All engineered columns of the sorted table, in derivation order, before
the final fill pass. -/
def engineeredCols (lib : NumLib) (s : List PRow) : List (String × List (Option ℚ)) :=
  baseCols s ++ timeCols lib (s.map (fun r => tsKey r.timestamp)) ++ maCols s
    ++ gradCols s ++ statCols lib s ++ spectralCols lib s ++ anomalyCols lib s

/-- The feature table produced from the sorted telemetry rows: every
column is passed through the final backward/forward/zero fill, so cells
are total. -/
def buildFeatures (lib : NumLib) (s : List PRow) : FTable where
  n := s.length
  cols := "timestamp" :: (engineeredCols lib s).map (·.1)
  ts := fun i => (s.map (fun r => tsKey r.timestamp)).getD i 0
  col := fun c i =>
    (fillChain (((engineeredCols lib s).lookup c).getD
      (List.replicate s.length (some 0)))).getD i 0

/-- `FeatureEngineer.engineer_features` (lines 167-188).  Its first
statement, `df['timestamp'] = pd.to_datetime(df['timestamp'])`, assigns
into the caller's frame in place, so the function returns both the
caller's table as it is left after the call (first component) and the
engineered feature table built from a sorted copy (second component).
`sort_values('timestamp')` is modelled with a stable merge sort; the
source's default quicksort only differs on the order of equal timestamps,
on which no claim depends. -/
def engineer_features (lib : NumLib) (p : PTable) : PTable × FTable :=
  let pMut := p.map (fun r => { r with timestamp := parseTs r.timestamp })
  let s := pMut.mergeSort (fun r1 r2 => decide (tsKey r1.timestamp ≤ tsKey r2.timestamp))
  (pMut, buildFeatures lib s)

/-! ## `CMEDetector` state and training (cme_detector.py) -/

/-- `FeatureEngineer.get_feature_importance_columns` (lines 190-202): the
fixed ordered feature-importance column list. -/
def get_feature_importance_columns : List String :=
  ["proton_flux", "electron_flux", "alpha_flux",
   "velocity", "temperature", "magnetic_field_magnitude",
   "proton_flux_ma_5", "proton_flux_ma_10", "proton_flux_ma_30",
   "velocity_ma_5", "velocity_ma_10", "velocity_ma_30",
   "proton_flux_grad_1", "proton_flux_grad_5", "velocity_grad_1",
   "proton_flux_std_60", "velocity_std_60",
   "proton_flux_zscore", "velocity_zscore",
   "flux_mahalanobis_distance",
   "proton_electron_" ++ "ratio_60"]

/-- `sklearn.preprocessing.StandardScaler` state: `none` when unfitted,
otherwise the per-feature `mean_` and `var_` lists (its `scale_` is
`sqrt(var_)`, with zero variance replaced by a unit scale). -/
structure Scaler where
  fitp : Option (List ℚ × List ℚ)
deriving DecidableEq, Repr

/-- The `CMEDetector` trained state: the three models of the `self.models`
dict in insertion order (`isolation_forest`, `svm`, `random_forest`), the
scaler, the trained flag and the trained column list.  An unsupervised
model stores the data it was fitted on (`none` = never fitted); the
classifier stores its training set and labels. -/
structure Detector where
  iforest_fit : Option (List (List ℚ))
  svm_fit : Option (List (List ℚ))
  rf_fit : Option (List (List ℚ) × List ℚ)
  scaler : Scaler
  is_trained : Bool
  feature_columns : List String
deriving DecidableEq, Repr

/-- `CMEDetector.__init__`: untrained detector with unfitted models. -/
def initDetector : Detector where
  iforest_fit := none
  svm_fit := none
  rf_fit := none
  scaler := ⟨none⟩
  is_trained := false
  feature_columns := []

/-- Mean of one selected feature column of `X` (scikit-learn scaler fit,
which normalizes by the number of samples). -/
def colMean (X : List (List ℚ)) (j : ℕ) : ℚ :=
  (X.map (fun r => r.getD j 0)).sum / (X.length : ℚ)

/-- Population variance of one feature column of `X` (`StandardScaler`
uses zero delta degrees of freedom). -/
def colVar (X : List (List ℚ)) (j : ℕ) : ℚ :=
  (X.map (fun r => (r.getD j 0 - colMean X j) ^ 2)).sum / (X.length : ℚ)

/-- `StandardScaler.fit` on `X` with `d` feature columns: the stored
`(mean_, var_)` pair. -/
def scalerFit (X : List (List ℚ)) (d : ℕ) : List ℚ × List ℚ :=
  ((List.range d).map (colMean X), (List.range d).map (colVar X))

/-- Scale one value: `(x − mean)/scale` where `scale = sqrt(var)` and a
zero variance gives a unit scale (scikit-learn's `_handle_zeros_in_scale`). -/
def scaleVal (lib : NumLib) (m v x : ℚ) : ℚ :=
  (x - m) / (if v = 0 then 1 else lib.sqrtA v)

/-- `StandardScaler.transform` of one row under fitted `(means, vars)`. -/
def scalerTransform (lib : NumLib) (means vars : List ℚ) (r : List ℚ) : List ℚ :=
  (List.range means.length).map (fun j =>
    scaleVal lib (means.getD j 0) (vars.getD j 0) (r.getD j 0))

/-- `features_df[available_columns].values`: the row-major matrix of the
selected columns. -/
def selectX (df : FTable) (cols : List String) : List (List ℚ) :=
  (List.range df.n).map (fun i => cols.map (fun c => df.col c i))

/-- `CMEDetector.train_models` (lines 71-103).  The result pairs the
detector state as the call leaves it with `none` on success or the raised
error: Python exceptions leave `self` holding every assignment already
executed, so the paired state after an error reflects exactly those
assignments.  Error points, in source order: `self.feature_columns` is
assigned first; a missing usable column set raises `ValueError`;
`StandardScaler.fit_transform` on an empty table raises `ValueError`
after `fit` has reset the scaler; the boolean mask `labels == 0` raises
`IndexError` inside the model loop when the label vector length differs
from the row count (after the scaler has been refitted on the new data).
An unsupervised model with no normal rows is skipped (its previous fit
state, if any, survives); the supervised forest is always fitted. -/
def train_models (lib : NumLib) (d : Detector) (df : FTable) (labels : List ℚ) :
    Detector × Option Err :=
  let d1 := { d with feature_columns := get_feature_importance_columns }
  let available := get_feature_importance_columns.filter (fun c => c ∈ df.cols)
  if available.isEmpty then (d1, some .valueError)
  else
    let X := selectX df available
    if df.n = 0 then ({ d1 with scaler := ⟨none⟩ }, some .valueError)
    else
      let mv := scalerFit X available.length
      let d2 := { d1 with scaler := ⟨some mv⟩ }
      let Xs := X.map (scalerTransform lib mv.1 mv.2)
      if labels.length ≠ Xs.length then (d2, some .indexError)
      else
        let normal := (Xs.zip labels).filterMap
          (fun p => if p.2 = 0 then some p.1 else none)
        let d3 := if normal.isEmpty then d2 else { d2 with iforest_fit := some normal }
        let d4 := if normal.isEmpty then d3 else { d3 with svm_fit := some normal }
        let d5 := { d4 with rf_fit := some (Xs, labels) }
        ({ d5 with is_trained := true }, none)

/-- The `available_columns` computed by `train_models` for a table. -/
abbrev availET (df : FTable) : List String :=
  get_feature_importance_columns.filter (fun c => c ∈ df.cols)

/-- The matrix `X` selected by `train_models`. -/
abbrev trainX (df : FTable) : List (List ℚ) := selectX df (availET df)

/-- The scaler parameters fitted by `train_models` on a table. -/
abbrev trainMV (df : FTable) : List ℚ × List ℚ := scalerFit (trainX df) (availET df).length

/-- The scaled matrix `X_scaled` of `train_models`. -/
abbrev trainXs (lib : NumLib) (df : FTable) : List (List ℚ) :=
  (trainX df).map (scalerTransform lib (trainMV df).1 (trainMV df).2)

/-- The `normal_data` rows (label 0) the unsupervised models are fitted on. -/
abbrev normalRows (lib : NumLib) (df : FTable) (labels : List ℚ) : List (List ℚ) :=
  ((trainXs lib df).zip labels).filterMap (fun p => if p.2 = 0 then some p.1 else none)

/-! ## Prediction and score fusion -/

/-- Minimum of a score list (`scores.min()`; scores are nonempty whenever
prediction reaches this point on a nonempty table). -/
def minL (l : List ℚ) : ℚ := l.foldl min (l.headD 0)

/-- Maximum of a score list (`scores.max()`). -/
def maxL (l : List ℚ) : ℚ := l.foldl max (l.headD 0)

/-- Lines 122-126: min-max normalize a decision-score vector to `[0,1]`
(with the `1e-6` guard) and invert it so that higher means more anomalous. -/
def normalizeInv (scores : List ℚ) : List ℚ :=
  scores.map (fun s => 1 - (s - minL scores) / (maxL scores - minL scores + 1 / 1000000))

/-- `np.unique(labels)`: the sorted distinct class labels a fitted
`RandomForestClassifier` exposes as `classes_`. -/
def classesOf (labels : List ℚ) : List ℚ :=
  labels.dedup.mergeSort (fun a b => decide (a ≤ b))

/-- `np.mean(predictions, axis=0)` over the three per-model probability
vectors. -/
def mean3 (p1 p2 p3 : List ℚ) : List ℚ :=
  (List.range p1.length).map (fun i =>
    (p1.getD i 0 + p2.getD i 0 + p3.getD i 0) / 3)

/-- `CMEDetector.predict_cme_probability` (lines 105-132).  Raises the
not-trained `ValueError` first; then restricts to the trained columns
present in the table, scales with the fitted scaler
(`transform` raises `ValueError` on a feature-count mismatch or an empty
batch, `NotFittedError` when the scaler was never fitted), and walks the
model dict in insertion order: each unsupervised model contributes its
inverted min-max-normalized decision scores (`decision_function` raises
`NotFittedError` on an unfitted model), and the forest contributes
`predict_proba(...)[:, 1]`, which raises `IndexError` when it was fitted
on fewer than two distinct classes.  The fused probability is the
unweighted mean of the three vectors. -/
def predict_cme_probability (lib : NumLib) (ml : MLCores) (d : Detector) (df : FTable) :
    Except Err (List ℚ) :=
  if d.is_trained = false then .error .notTrained
  else
    let available := d.feature_columns.filter (fun c => c ∈ df.cols)
    let X := selectX df available
    match d.scaler.fitp with
    | none => .error .notFitted
    | some mv =>
      if available.length ≠ mv.1.length then .error .valueError
      else if df.n = 0 then .error .valueError
      else
        let Xs := X.map (scalerTransform lib mv.1 mv.2)
        match d.iforest_fit with
        | none => .error .notFitted
        | some tr1 =>
          let p1 := normalizeInv (Xs.map (ml.ifScore tr1))
          match d.svm_fit with
          | none => .error .notFitted
          | some tr2 =>
            let p2 := normalizeInv (Xs.map (ml.svmScore tr2))
            match d.rf_fit with
            | none => .error .notFitted
            | some trRf =>
              let classes := classesOf trRf.2
              if h1 : 1 < classes.length then
                let p3 := Xs.map (fun r => ml.rfProb trRf r (classes.get ⟨1, h1⟩))
                .ok (mean3 p1 p2 p3)
              else .error .indexError

/-- One row's rule-based score in `apply_threshold_rules` (lines 134-163):
weighted indicator sum over the four physical thresholds; a missing
column contributes nothing. -/
def ruleScore (vt ft tt mt : ℚ) (df : FTable) (i : ℕ) : ℚ :=
  (if "velocity" ∈ df.cols ∧ vt < df.col "velocity" i then (3 : ℚ) / 10 else 0)
  + (if "proton_flux" ∈ df.cols ∧ ft < df.col "proton_flux" i then (3 : ℚ) / 10 else 0)
  + (if "temperature" ∈ df.cols ∧ tt < df.col "temperature" i then (2 : ℚ) / 10 else 0)
  + (if "magnetic_field_magnitude" ∈ df.cols ∧ mt < df.col "magnetic_field_magnitude" i
      then (2 : ℚ) / 10 else 0)

/-- `np.clip(x, 0, 1)`. -/
def clip01 (x : ℚ) : ℚ := min 1 (max 0 x)

/-- `CMEDetector.apply_threshold_rules` (lines 134-167): clipped
combination `0.7·ml + 0.3·rule` per row.  The four thresholds are the
configured `velocity/flux/temperature/magnetic_field` thresholds
(defaults 500, 1200, 200000, 10 when absent from the configuration). -/
def apply_threshold_rules (vt ft tt mt : ℚ) (df : FTable) (ml : List ℚ) : List ℚ :=
  (List.range df.n).map (fun i =>
    clip01 (7 / 10 * ml.getD i 0 + 3 / 10 * ruleScore vt ft tt mt df i))

/-! ## Event creation and segmentation -/

/-- `CMEDetector._create_cme_event` (lines 249-287).  `np.argmax` on the
empty index list raises `ValueError`; indexing `scores` with an
out-of-range index, or `features_df.iloc` with a peak beyond the table,
raises `IndexError`.  The peak is the first-encountered maximum-score
index of the group; velocity and proton flux default to 400 and 1000 when
their columns are absent (`peak_data.get`). -/
def create_cme_event (rng : Rng) (df : FTable) (scores : List ℚ) (indices : List ℕ) :
    Except Err CmeEvent :=
  if indices.isEmpty then .error .valueError
  else if indices.any (fun i => scores.length ≤ i) then .error .indexError
  else
    let peak := indices.getD (argmaxFirst (indices.map (fun i => scores.getD i 0))) 0
    if df.n ≤ peak then .error .indexError
    else
      let v := fget df "velocity" 400 peak
      let fl := fget df "proton_flux" 1000 peak
      let tw : CmeType × ℚ :=
        if 800 < v ∧ 2000 < fl then (CmeType.halo, 360)
        else if 600 < v ∧ 1500 < fl then (CmeType.pHalo, rng.uniform 120 359)
        else (CmeType.nonHalo, rng.uniform 20 119)
      .ok { idTs := df.ts peak
            timestamp := df.ts peak
            ctype := tw.1
            velocity := v
            width := tw.2
            acceleration := rng.normal (-5) 10
            confidence := scores.getD peak 0
            source := "swis"
            status := "detected"
            lat := rng.uniform (-90) 90
            lon := rng.uniform (-180) 180
            magnitude := min 10 (v / 100) }

/-- The event-extraction block of `detect_cme_events` (lines 186-203): the
indices whose fused score exceeds the confidence threshold are grouped
with the default gap of 10 and each group becomes one event; an exception
from event creation aborts the whole extraction, and selecting no indices
yields the empty event list. -/
def segment_events (rng : Rng) (df : FTable) (scores : List ℚ) (threshold : ℚ) :
    Except Err (List CmeEvent) :=
  let cme_indices := (List.range scores.length).filter
    (fun i => threshold < scores.getD i 0)
  let groups := group_consecutive_detections (cme_indices.map Int.ofNat) 10
  groups.mapM (fun g => create_cme_event rng df scores (g.map Int.toNat))

/-- `CMEDetector.rule_based_detection` (lines 205-229): engineer features
(this writes the parsed timestamps back into the caller's table, hence the
paired first component), select rows exceeding both the velocity and flux
thresholds (`features_df.get(col, 0)` yields a zero default when a column
is missing), group them with the default gap, and build events against the
constant score series `0.8`. -/
def rule_based_detection (lib : NumLib) (rng : Rng) (vt ft : ℚ) (p : PTable) :
    PTable × Except Err (List CmeEvent) :=
  let ef := engineer_features lib p
  let f := ef.2
  let vcol := fun i => if "velocity" ∈ f.cols then f.col "velocity" i else 0
  let pcol := fun i => if "proton_flux" ∈ f.cols then f.col "proton_flux" i else 0
  let cme_indices := (List.range f.n).filter (fun i => vt < vcol i ∧ ft < pcol i)
  let groups := group_consecutive_detections (cme_indices.map Int.ofNat) 10
  let scores := List.replicate f.n ((8 : ℚ) / 10)
  (ef.1, groups.mapM (fun g => create_cme_event rng f scores (g.map Int.toNat)))

/-- `CMEDetector.detect_cme_events` (lines 169-203): on an untrained
detector fall back to rule-based detection; otherwise engineer features,
predict the fused ensemble probability, combine with the threshold rules
and segment.  `cth` is the configured confidence threshold (default 0.7). -/
def detect_cme_events (lib : NumLib) (ml : MLCores) (rng : Rng)
    (vt ft tt mt cth : ℚ) (d : Detector) (p : PTable) :
    PTable × Except Err (List CmeEvent) :=
  if d.is_trained = false then rule_based_detection lib rng vt ft p
  else
    let ef := engineer_features lib p
    match predict_cme_probability lib ml d ef.2 with
    | .error e => (ef.1, .error e)
    | .ok mlProbs =>
      let final := apply_threshold_rules vt ft tt mt ef.2 mlProbs
      (ef.1, segment_events rng ef.2 final cth)

/-! ## Concrete instances used to evaluate the theorems on closed inputs -/

/-- A concrete numeric library for closed evaluations: square root and sine
stand-ins are the identity, the calendar decomposition is constant, the
Welch estimate echoes its input, and the pseudo-inverse is Decell's exact
rational algorithm. -/
def libTriv : NumLib :=
  ⟨fun q => q, fun q => q, 3, fun _ => 0, fun _ => 0, fun _ l => (l, l), pinv3⟩

/-- Concrete model cores scoring everything zero. -/
def mlZero : MLCores := ⟨fun _ _ => 0, fun _ _ => 0, fun _ _ _ => 0⟩

/-- A concrete sampler returning the lower end of each requested range. -/
def rngLo : Rng := ⟨fun a _ => a, fun a _ => a⟩

/-- A concrete two-row feature table with a proton-flux and a velocity
column. -/
def tblTwo : FTable where
  n := 2
  cols := ["proton_flux", "velocity"]
  ts := fun _ => 0
  col := fun c i =>
    if c = "proton_flux" then (if i = 0 then 1 else 3) else (if i = 0 then 2 else 4)

/-- A concrete one-row feature table (used to exhibit a score series whose
length differs from the table length). -/
def tblOne : FTable where
  n := 1
  cols := ["velocity"]
  ts := fun _ => 0
  col := fun _ _ => 0

/-- A concrete already-trained detector state (fitted scaler and models). -/
def trainedDet : Detector where
  iforest_fit := some [[0]]
  svm_fit := some [[0]]
  rf_fit := some ([[0], [0]], [0, 1])
  scaler := ⟨some ([0], [1])⟩
  is_trained := true
  feature_columns := get_feature_importance_columns

/-- A one-row caller table whose timestamp cell is not yet datetime-typed. -/
def rawRowTable : PTable :=
  [{ timestamp := .raw 5, proton_flux := 1, electron_flux := 1, alpha_flux := 1,
     velocity := 1, temperature := 1, density := 1, magnetic_field_magnitude := 1 }]

/-- A one-row caller table whose timestamp cell is already datetime-typed. -/
def dtRowTable : PTable :=
  [{ timestamp := .dt 5, proton_flux := 1, electron_flux := 1, alpha_flux := 1,
     velocity := 1, temperature := 1, density := 1, magnetic_field_magnitude := 1 }]

/-- Three flux rows (the standard basis): as many rows as flux columns. -/
def rows3 : List Vec3 := [⟨1, 0, 0⟩, ⟨0, 1, 0⟩, ⟨0, 0, 1⟩]

/-- The Moore-Penrose pseudo-inverse of the (singular) sample covariance of
`rows3`: the covariance is `(1/2)(I − J/3)` with `J` the all-ones matrix,
a scalar multiple of a projection, whose pseudo-inverse is `2(I − J/3)`.
The four Penrose identities are checked by `decide` in the counterexample. -/
def pinvRows3 : Mat3 :=
  ⟨4/3, -2/3, -2/3, -2/3, 4/3, -2/3, -2/3, -2/3, 4/3⟩

/-- Four flux rows whose sample covariance is `(4/3)·I` (nonsingular). -/
def rows4 : List Vec3 := [⟨1, 1, 1⟩, ⟨1, -1, -1⟩, ⟨-1, 1, -1⟩, ⟨-1, -1, 1⟩]

/-- The inverse covariance of `rows4`: `(3/4)·I`. -/
def invRows4 : Mat3 := ⟨3/4, 0, 0, 0, 3/4, 0, 0, 0, 3/4⟩

/-- Four flux rows on a line: every coordinate list is `[1, 2, 3, 4]`, so
the sample covariance is the singular rank-one matrix `(5/3)·J` (`J` the
all-ones matrix) — strictly more rows than flux columns, singular
covariance. -/
def rows4s : List Vec3 := [⟨1, 1, 1⟩, ⟨2, 2, 2⟩, ⟨3, 3, 3⟩, ⟨4, 4, 4⟩]

/-- The Moore-Penrose pseudo-inverse of the singular covariance of
`rows4s`: `(1/15)·J` (checked against the Penrose identities by
evaluation in the witness). -/
def pinvSing : Mat3 :=
  ⟨1/15, 1/15, 1/15, 1/15, 1/15, 1/15, 1/15, 1/15, 1/15⟩

/-! ## Properties of the grouping loop -/

theorem groupLoop_append (maxGap : ℤ) (rest : List ℤ) :
    ∀ (prev : ℤ) (cur : List ℤ) (groups : List (List ℤ)),
      groupLoop maxGap prev cur groups rest = groups ++ groupLoop maxGap prev cur [] rest := by
  induction rest with
  | nil => intro prev cur groups; simp [groupLoop]
  | cons x xs ih =>
    intro prev cur groups
    by_cases h : x - prev ≤ maxGap
    · simp only [groupLoop, if_pos h]
      rw [ih x (cur ++ [x]) groups]
    · simp only [groupLoop, if_neg h]
      rw [ih x [x] (groups ++ [cur]), ih x [x] ([] ++ [cur])]
      simp

theorem groupLoop_flatten (maxGap : ℤ) (rest : List ℤ) :
    ∀ (prev : ℤ) (cur : List ℤ),
      (groupLoop maxGap prev cur [] rest).flatten = cur ++ rest := by
  induction rest with
  | nil => intro prev cur; simp [groupLoop]
  | cons x xs ih =>
    intro prev cur
    by_cases h : x - prev ≤ maxGap
    · simp only [groupLoop, if_pos h]
      rw [ih x (cur ++ [x])]; simp
    · simp only [groupLoop, if_neg h]
      rw [groupLoop_append maxGap xs x [x] ([] ++ [cur])]
      simp [ih x [x]]

theorem groupLoop_ne_nil (maxGap : ℤ) (rest : List ℤ) :
    ∀ (prev : ℤ) (cur : List ℤ), cur ≠ [] →
      ∀ grp ∈ groupLoop maxGap prev cur [] rest, grp ≠ [] := by
  induction rest with
  | nil => intro prev cur hcur grp hg; simp [groupLoop] at hg; simpa [hg]
  | cons x xs ih =>
    intro prev cur hcur grp hg
    by_cases h : x - prev ≤ maxGap
    · simp only [groupLoop, if_pos h] at hg
      exact ih x (cur ++ [x]) (by simp) grp hg
    · simp only [groupLoop, if_neg h] at hg
      rw [groupLoop_append maxGap xs x [x] ([] ++ [cur])] at hg
      simp only [List.nil_append, List.mem_append] at hg
      rcases hg with hg | hg
      · simp at hg; simpa [hg]
      · exact ih x [x] (by simp) grp hg

/-- Within-group adjacency: every group produced by the loop is a chain
whose consecutive elements differ by at most the gap, provided the group
under construction is such a chain ending at `prev`. -/
theorem groupLoop_chain (maxGap : ℤ) (rest : List ℤ) :
    ∀ (prev : ℤ) (cur : List ℤ),
      cur.Chain' (fun a b => b - a ≤ maxGap) → cur.getLast? = some prev →
      ∀ grp ∈ groupLoop maxGap prev cur [] rest,
        grp.Chain' (fun a b => b - a ≤ maxGap) := by
  induction rest with
  | nil =>
    intro prev cur hchain _ grp hg
    simp [groupLoop] at hg; exact hg ▸ hchain
  | cons x xs ih =>
    intro prev cur hchain hlast grp hg
    by_cases h : x - prev ≤ maxGap
    · simp only [groupLoop, if_pos h] at hg
      refine ih x (cur ++ [x]) ?_ (by simp) grp hg
      rw [List.chain'_append]
      refine ⟨hchain, List.chain'_singleton x, ?_⟩
      intro a ha b hb
      rw [hlast] at ha
      simp at ha hb
      simpa [ha, hb] using h
    · simp only [groupLoop, if_neg h] at hg
      rw [groupLoop_append maxGap xs x [x] ([] ++ [cur])] at hg
      simp only [List.nil_append, List.mem_append] at hg
      rcases hg with hg | hg
      · simp at hg; exact hg ▸ hchain
      · exact ih x [x] (List.chain'_singleton x) (by simp) grp hg

/-- The first group emitted by the loop extends `cur` on the right. -/
theorem groupLoop_head (maxGap : ℤ) (rest : List ℤ) :
    ∀ (prev : ℤ) (cur : List ℤ),
      ∃ ext tail, groupLoop maxGap prev cur [] rest = (cur ++ ext) :: tail := by
  induction rest with
  | nil => intro prev cur; exact ⟨[], [], by simp [groupLoop]⟩
  | cons x xs ih =>
    intro prev cur
    by_cases h : x - prev ≤ maxGap
    · simp only [groupLoop, if_pos h]
      obtain ⟨ext, tail, heq⟩ := ih x (cur ++ [x])
      exact ⟨[x] ++ ext, tail, by simpa using heq⟩
    · simp only [groupLoop, if_neg h]
      rw [groupLoop_append maxGap xs x [x] ([] ++ [cur])]
      exact ⟨[], ([] ++ groupLoop maxGap x [x] [] xs), by simp⟩

/-- Maximality: adjacent emitted groups are separated by a jump larger than
the gap (last element of one group to first element of the next). -/
theorem groupLoop_boundary (maxGap : ℤ) (rest : List ℤ) :
    ∀ (prev : ℤ) (cur : List ℤ), cur.getLast? = some prev →
      (groupLoop maxGap prev cur [] rest).Chain'
        (fun g1 g2 => ∀ a ∈ g1.getLast?, ∀ b ∈ g2.head?, maxGap < b - a) := by
  induction rest with
  | nil => intro prev cur _; simp [groupLoop]
  | cons x xs ih =>
    intro prev cur hlast
    by_cases h : x - prev ≤ maxGap
    · simp only [groupLoop, if_pos h]
      exact ih x (cur ++ [x]) (by simp)
    · simp only [groupLoop, if_neg h]
      rw [groupLoop_append maxGap xs x [x] ([] ++ [cur])]
      simp only [List.nil_append, List.singleton_append]
      rw [List.chain'_cons']
      constructor
      · intro g2 hg2
        obtain ⟨ext, tail, heq⟩ := groupLoop_head maxGap xs x [x]
        rw [heq] at hg2
        simp at hg2
        intro a ha b hb
        rw [hlast] at ha
        rw [← hg2] at hb
        simp at ha hb
        subst ha; subst hb
        omega
      · exact ih x [x] (by simp)

/-- C7: the grouping operation partitions any index list into maximal runs:
the groups concatenate back to the input, every group is a nonempty chain
whose consecutive elements differ by at most the gap, adjacent groups are
separated by a difference strictly larger than the gap, the empty list
yields no groups, and the three concrete examples of the spec hold. -/
theorem C7_grouping_correct :
    (∀ g : ℤ, group_consecutive_detections [] g = []) ∧
    (∀ (l : List ℤ) (g : ℤ),
      (group_consecutive_detections l g).flatten = l ∧
      (∀ grp ∈ group_consecutive_detections l g,
        grp ≠ [] ∧ grp.Chain' (fun a b => b - a ≤ g)) ∧
      (group_consecutive_detections l g).Chain'
        (fun g1 g2 => ∀ a ∈ g1.getLast?, ∀ b ∈ g2.head?, g < b - a)) ∧
    group_consecutive_detections [1, 2, 3, 5, 6, 10] 1 = [[1, 2, 3], [5, 6], [10]] ∧
    group_consecutive_detections [1, 2, 3, 4, 5] 1 = [[1, 2, 3, 4, 5]] := by
  refine ⟨fun _ => rfl, ?_, by decide, by decide⟩
  intro l g
  match l with
  | [] => exact ⟨rfl, by simp [group_consecutive_detections], by simp [group_consecutive_detections]⟩
  | x :: xs =>
    refine ⟨?_, ?_, ?_⟩
    · simpa using groupLoop_flatten g xs x [x]
    · intro grp hg
      exact ⟨groupLoop_ne_nil g xs x [x] (by simp) grp hg,
        groupLoop_chain g xs x [x] (List.chain'_singleton x) (by simp) grp hg⟩
    · exact groupLoop_boundary g xs x [x] (by simp)

/-- Witness for C7: the property instantiated at the spec's own example,
with the interior-group facts extracted for the group `[5, 6]`. -/
theorem C7_grouping_correct_witness :
    (group_consecutive_detections [1, 2, 3, 5, 6, 10] 1).flatten = [1, 2, 3, 5, 6, 10] ∧
    (([5, 6] : List ℤ) ≠ [] ∧ List.Chain' (fun a b => b - a ≤ 1) ([5, 6] : List ℤ)) :=
  ⟨(C7_grouping_correct.2.1 [1, 2, 3, 5, 6, 10] 1).1,
    (C7_grouping_correct.2.1 [1, 2, 3, 5, 6, 10] 1).2.1 [5, 6] (by decide)⟩

/-! ## Properties of `argmaxFirst` (`np.argmax`) -/

theorem argmaxFirst_lt_length : ∀ l : List ℚ, l ≠ [] → argmaxFirst l < l.length := by
  intro l
  induction l with
  | nil => intro h; exact absurd rfl h
  | cons x xs ih =>
    intro _
    match xs with
    | [] => simp [argmaxFirst]
    | y :: ys =>
      simp only [argmaxFirst]
      split
      · simp
      · have := ih (by simp)
        simpa using Nat.succ_lt_succ this

theorem argmaxFirst_le : ∀ (l : List ℚ) (k : ℕ), k < l.length →
    l.getD k 0 ≤ l.getD (argmaxFirst l) 0 := by
  intro l
  induction l with
  | nil => intro k hk; simp at hk
  | cons x xs ih =>
    intro k hk
    match xs with
    | [] =>
      match k with
      | 0 => simp [argmaxFirst]
      | k + 1 => simp at hk
    | y :: ys =>
      simp only [argmaxFirst]
      split
      · rename_i hle
        match k with
        | 0 => simp
        | k + 1 =>
          have hk2 : k < (y :: ys).length := by simpa using hk
          calc (x :: y :: ys).getD (k + 1) 0 = (y :: ys).getD k 0 := by simp
            _ ≤ (y :: ys).getD (argmaxFirst (y :: ys)) 0 := ih k hk2
            _ ≤ x := hle
            _ = (x :: y :: ys).getD 0 0 := by simp
      · rename_i hlt
        push_neg at hlt
        match k with
        | 0 =>
          simpa using le_of_lt hlt
        | k + 1 =>
          have hk2 : k < (y :: ys).length := by simpa using hk
          simpa using ih k hk2

theorem argmaxFirst_first : ∀ (l : List ℚ) (k : ℕ), k < argmaxFirst l →
    l.getD k 0 < l.getD (argmaxFirst l) 0 := by
  intro l
  induction l with
  | nil => intro k hk; simp [argmaxFirst] at hk
  | cons x xs ih =>
    intro k hk
    match xs with
    | [] => simp [argmaxFirst] at hk
    | y :: ys =>
      simp only [argmaxFirst] at hk ⊢
      split at hk
      · omega
      · rename_i hlt
        push_neg at hlt
        rw [if_neg (by push_neg; exact hlt)]
        match k with
        | 0 => simpa using hlt
        | k + 1 =>
          have : k < argmaxFirst (y :: ys) := by omega
          simpa using ih k this

/-! ## Helper lemmas on event extraction -/

theorem mapM_ok_forall {α β : Type} (f : α → Except Err β) (P : β → Prop) :
    ∀ gs : List α, (∀ g ∈ gs, ∃ e, f g = .ok e ∧ P e) →
      ∃ evs, gs.mapM f = .ok evs ∧ ∀ e ∈ evs, P e := by
  intro gs
  induction gs with
  | nil => intro _; exact ⟨[], rfl, by simp⟩
  | cons g gs ih =>
    intro h
    obtain ⟨e, hg, hPe⟩ := h g (by simp)
    obtain ⟨evs, hm, hP⟩ := ih (fun x hx => h x (by simp [hx]))
    refine ⟨e :: evs, ?_, ?_⟩
    · rw [List.mapM_cons, hg, hm]; rfl
    · intro y hy
      rcases List.mem_cons.mp hy with h1 | h2
      · exact h1 ▸ hPe
      · exact hP y h2

theorem Except_error_bind {β γ : Type} (e : Err) (f : β → Except Err γ) :
    (Except.error e >>= f : Except Err γ) = Except.error e := rfl

theorem Except_ok_bind {β γ : Type} (a : β) (f : β → Except Err γ) :
    (Except.ok a >>= f : Except Err γ) = f a := rfl

theorem mapM_error_source {α β : Type} (f : α → Except Err β) :
    ∀ (gs : List α) (err : Err), gs.mapM f = .error err → ∃ g ∈ gs, f g = .error err := by
  intro gs
  induction gs with
  | nil =>
    intro err h
    rw [show List.mapM f ([] : List α) = (pure [] : Except Err (List β)) from rfl] at h
    exact Except.noConfusion h
  | cons g gs ih =>
    intro err h
    cases hfg : f g with
    | error e2 =>
      simp only [List.mapM_cons, hfg, Except_error_bind] at h
      injection h with h2
      exact ⟨g, by simp, by rw [hfg, h2]⟩
    | ok e =>
      cases hm : gs.mapM f with
      | error e3 =>
        simp only [List.mapM_cons, hfg, Except_ok_bind, hm, Except_error_bind] at h
        injection h with h2
        obtain ⟨g2, hg2, hfg2⟩ := ih e3 hm
        exact ⟨g2, by simp [hg2], by rw [hfg2, h2]⟩
      | ok evs =>
        simp only [List.mapM_cons, hfg, Except_ok_bind, hm] at h
        exact Except.noConfusion h

theorem create_cme_event_ne_invalid (rng : Rng) (df : FTable) (scores : List ℚ)
    (indices : List ℕ) : create_cme_event rng df scores indices ≠ .error .invalidInput := by
  unfold create_cme_event
  intro habs
  split at habs
  · simp at habs
  · split at habs
    · simp at habs
    · dsimp only at habs
      split at habs
      · simp at habs
      · simp at habs

/-- Groups produced by `_group_consecutive_detections` are nonempty and draw
their members from the input index list. -/
theorem group_mem_subset (l : List ℤ) (mg : ℤ) (grp : List ℤ)
    (h : grp ∈ group_consecutive_detections l mg) : grp ≠ [] ∧ ∀ x ∈ grp, x ∈ l := by
  match l with
  | [] => simp [group_consecutive_detections] at h
  | x :: xs =>
    refine ⟨groupLoop_ne_nil mg xs x [x] (by simp) grp h, ?_⟩
    intro z hz
    have : z ∈ (group_consecutive_detections (x :: xs) mg).flatten :=
      List.mem_flatten.mpr ⟨grp, h, hz⟩
    rw [show group_consecutive_detections (x :: xs) mg = groupLoop mg x [x] [] xs from rfl,
      groupLoop_flatten mg xs x [x]] at this
    simpa using this

/-- On a constant score series `0.8` (the rule-based fallback), event
creation succeeds for every nonempty in-range group and stamps confidence
`0.8` on the event. -/
theorem create_cme_event_replicate (rng : Rng) (df : FTable) (g : List ℕ)
    (hne : g ≠ []) (hlt : ∀ i ∈ g, i < df.n) :
    ∃ ev, create_cme_event rng df (List.replicate df.n ((8 : ℚ) / 10)) g = .ok ev ∧
      ev.confidence = 8 / 10 := by
  have hmapne : g.map (fun i => (List.replicate df.n ((8 : ℚ) / 10)).getD i 0) ≠ [] := by
    simpa using hne
  have hargLt : argmaxFirst (g.map (fun i => (List.replicate df.n ((8 : ℚ) / 10)).getD i 0))
      < g.length := by
    have := argmaxFirst_lt_length _ hmapne
    simpa using this
  have hpeakMem : g.getD (argmaxFirst
      (g.map (fun i => (List.replicate df.n ((8 : ℚ) / 10)).getD i 0))) 0 ∈ g := by
    rw [List.getD_eq_getElem _ _ hargLt]
    exact List.getElem_mem _
  have hpeakLt : g.getD (argmaxFirst
      (g.map (fun i => (List.replicate df.n ((8 : ℚ) / 10)).getD i 0))) 0 < df.n :=
    hlt _ hpeakMem
  unfold create_cme_event
  rw [if_neg (by simpa [List.isEmpty_iff] using hne)]
  rw [if_neg ?hany]
  case hany =>
    simp only [List.any_eq_true, not_exists, not_and]
    push_neg
    intro i hi
    simpa using hlt i hi
  rw [if_neg (by omega)]
  refine ⟨_, rfl, ?_⟩
  show (List.replicate df.n ((8 : ℚ) / 10)).getD _ 0 = 8 / 10
  rw [List.getD_eq_getElem _ _ (by simpa using hpeakLt)]
  simp

/-- C10: with an untrained detector, detection takes the rule-based
fallback, which scores every row a constant `0.8`, so every returned event
has confidence exactly `0.8` regardless of the telemetry values, and the
extraction never fails. -/
theorem C10_untrained_confidence (lib : NumLib) (ml : MLCores) (rng : Rng)
    (vt ft tt mt cth : ℚ) (d : Detector) (p : PTable)
    (h : d.is_trained = false) :
    ∃ evs, (detect_cme_events lib ml rng vt ft tt mt cth d p).2 = .ok evs ∧
      ∀ e ∈ evs, e.confidence = 8 / 10 := by
  unfold detect_cme_events
  rw [if_pos (by rw [h])]
  unfold rule_based_detection
  refine mapM_ok_forall _ _ _ ?_
  intro g hg
  obtain ⟨hne, hsub⟩ := group_mem_subset _ _ _ hg
  have hlt : ∀ i ∈ g.map Int.toNat, i < (engineer_features lib p).2.n := by
    intro i hi
    obtain ⟨z, hz, hzi⟩ := List.mem_map.mp hi
    obtain ⟨j, hj, hjz⟩ := List.mem_map.mp (hsub z hz)
    have hjn : j < (engineer_features lib p).2.n := by
      have := List.mem_filter.mp hj
      simpa using List.mem_range.mp this.1
    subst hzi
    subst hjz
    simpa using hjn
  have hmne : g.map Int.toNat ≠ [] := by
    intro habs
    exact hne (List.map_eq_nil_iff.mp habs)
  exact create_cme_event_replicate rng _ (g.map Int.toNat) hmne hlt

/-- Witness for C10: a concrete untrained detection run returning only
events of confidence `0.8`. -/
theorem C10_untrained_confidence_witness :
    ∃ evs, (detect_cme_events libTriv mlZero rngLo 500 1200 200000 10 (7 / 10)
      initDetector rawRowTable).2 = .ok evs ∧ ∀ e ∈ evs, e.confidence = 8 / 10 :=
  C10_untrained_confidence libTriv mlZero rngLo 500 1200 200000 10 (7 / 10)
    initDetector rawRowTable rfl

/-- C5 (amended): the event-extraction block never raises for an empty
score series — it returns the empty event list — and it performs no
length validation at all: no input whatsoever makes it raise
`InvalidInputError` (a mismatched score series is either processed
silently or, when it selects an index beyond the feature table, fails
with an index error instead). -/
theorem C5_segmenter_failure_semantics :
    (∀ (rng : Rng) (df : FTable) (th : ℚ), segment_events rng df [] th = .ok []) ∧
    (∀ (rng : Rng) (df : FTable) (scores : List ℚ) (th : ℚ),
      segment_events rng df scores th ≠ .error .invalidInput) := by
  constructor
  · intro rng df th; rfl
  · intro rng df scores th habs
    obtain ⟨g, _, hg⟩ := mapM_error_source _ _ _ habs
    exact create_cme_event_ne_invalid rng df scores (g.map Int.toNat) hg

/-- Witness for C5: the two amended conjuncts at concrete inputs — an empty
score series against a two-row table, and a nonempty score series against
the same table. -/
theorem C5_segmenter_failure_semantics_witness :
    segment_events rngLo tblTwo [] (7 / 10) = .ok [] ∧
    segment_events rngLo tblTwo [1, 1] (7 / 10) ≠ .error .invalidInput :=
  ⟨C5_segmenter_failure_semantics.1 rngLo tblTwo (7 / 10),
    C5_segmenter_failure_semantics.2 rngLo tblTwo [1, 1] (7 / 10)⟩

/-- Counterexample for C5: a score series of length 2 against a one-row
feature table is not rejected — the extraction silently returns the empty
event list instead of raising `InvalidInputError`, refuting the claim's
"raises `InvalidInputError` whenever the score series length does not
match the feature table length". -/
theorem C5_segmenter_failure_semantics_counterexample :
    tblOne.n = 1 ∧ ([0, 0] : List ℚ).length = 2 ∧
    segment_events rngLo tblOne [0, 0] (7 / 10) = .ok [] := by
  refine ⟨rfl, rfl, ?_⟩
  with_unfolding_all decide

/-! ## Inversion of the training operation -/

theorem trainXs_length (lib : NumLib) (df : FTable) : (trainXs lib df).length = df.n := by
  simp [trainXs, trainX, selectX]

theorem isEmpty_false_of_ne_nil {α : Type} {l : List α} (h : l ≠ []) :
    l.isEmpty = false := by
  cases l with
  | nil => exact absurd rfl h
  | cons a t => rfl

/-- A successful training call forces the three guards to have passed and
determines every field of the resulting state. -/
theorem train_models_ok (lib : NumLib) (d : Detector) (df : FTable) (labels : List ℚ)
    (d' : Detector) (h : train_models lib d df labels = (d', none)) :
    (availET df).isEmpty = false ∧ df.n ≠ 0 ∧ labels.length = df.n ∧
    d'.is_trained = true ∧
    d'.feature_columns = get_feature_importance_columns ∧
    d'.scaler = ⟨some (trainMV df)⟩ ∧
    d'.rf_fit = some (trainXs lib df, labels) ∧
    d'.iforest_fit = (if (normalRows lib df labels).isEmpty then d.iforest_fit
      else some (normalRows lib df labels)) ∧
    d'.svm_fit = (if (normalRows lib df labels).isEmpty then d.svm_fit
      else some (normalRows lib df labels)) := by
  unfold train_models at h
  dsimp only at h
  by_cases h1 : (availET df).isEmpty
  · rw [if_pos h1] at h
    simp at h
  · rw [if_neg h1] at h
    by_cases h2 : df.n = 0
    · rw [if_pos h2] at h
      simp at h
    · rw [if_neg h2] at h
      by_cases h3 : labels.length ≠ (trainXs lib df).length
      · rw [if_pos h3] at h
        simp at h
      · rw [if_neg h3] at h
        push_neg at h3
        injection h with hA hB
        refine ⟨eq_false_of_ne_true h1, h2, by rw [h3, trainXs_length], ?_⟩
        subst hA
        by_cases h4 : (normalRows lib df labels).isEmpty
        · simp [h4]
        · simp [h4]

/-- A training set without a single normal (label 0) row leaves the
unsupervised fit set empty. -/
theorem normalRows_eq_nil (lib : NumLib) (df : FTable) (labels : List ℚ)
    (h : ∀ l ∈ labels, l ≠ 0) : normalRows lib df labels = [] := by
  unfold normalRows
  rw [List.filterMap_eq_nil_iff]
  intro p hp
  have : p.2 ∈ labels := List.of_mem_zip hp |>.2
  rw [if_neg (h p.2 this)]

/-- A training set containing a normal row makes the unsupervised fit set
nonempty, provided the label vector is aligned with the table. -/
theorem normalRows_ne_nil (lib : NumLib) (df : FTable) (labels : List ℚ)
    (hlen : labels.length = df.n) (h0 : (0 : ℚ) ∈ labels) :
    (normalRows lib df labels).isEmpty = false := by
  obtain ⟨i, hi, hik⟩ := List.mem_iff_getElem.mp h0
  have hiX : i < (trainXs lib df).length := by
    rw [trainXs_length, ← hlen]; exact hi
  have hzl : i < ((trainXs lib df).zip labels).length := by
    rw [List.length_zip, trainXs_length, ← hlen, Nat.min_self]
    exact hi
  have hzip : ((trainXs lib df).zip labels)[i] = ((trainXs lib df)[i], labels[i]) :=
    List.getElem_zip
  apply isEmpty_false_of_ne_nil
  intro hnil
  have hmem : ((trainXs lib df)[i] : List ℚ) ∈ normalRows lib df labels := by
    rw [List.mem_filterMap]
    exact ⟨((trainXs lib df)[i], labels[i]), by rw [← hzip]; exact List.getElem_mem hzl,
      by rw [hik]; simp⟩
  rw [hnil] at hmem
  simp at hmem

/-- Two distinct label values give the fitted forest at least two classes. -/
theorem one_lt_classesOf (labels : List ℚ) (h0 : (0 : ℚ) ∈ labels)
    (h1 : ∃ l ∈ labels, l ≠ 0) : 1 < (classesOf labels).length := by
  obtain ⟨l, hl, hlne⟩ := h1
  have h0d : (0 : ℚ) ∈ labels.dedup := List.mem_dedup.mpr h0
  have hld : l ∈ labels.dedup := List.mem_dedup.mpr hl
  have hlen : 1 < labels.dedup.length := by
    rcases hde : labels.dedup with _ | ⟨a, _ | ⟨b, t⟩⟩
    · rw [hde] at h0d; simp at h0d
    · rw [hde] at h0d hld
      simp at h0d hld
      exact absurd (hld.trans h0d.symm) hlne
    · simp
  unfold classesOf
  rwa [List.length_mergeSort]

/-- C2 (amended): training is not atomic under failure.  `feature_columns`
is always overwritten (with the constant importance list) before the first
possible error; a no-usable-columns failure changes nothing else, while a
label/row length mismatch raises only after the scaler has been refitted
on the new table, so the prior scaler parameters are lost.  The models and
the trained flag do survive both failures. -/
theorem C2_training_not_atomic (lib : NumLib) (d : Detector) (df : FTable)
    (labels : List ℚ) :
    ((availET df).isEmpty = true →
      train_models lib d df labels =
        ({ d with feature_columns := get_feature_importance_columns }, some Err.valueError)) ∧
    ((availET df).isEmpty = false → df.n ≠ 0 → labels.length ≠ df.n →
      train_models lib d df labels =
        ({ d with feature_columns := get_feature_importance_columns,
                  scaler := ⟨some (trainMV df)⟩ }, some Err.indexError)) := by
  constructor
  · intro h1
    unfold train_models
    dsimp only
    rw [if_pos h1]
  · intro h1 h2 h3
    unfold train_models
    dsimp only
    rw [if_neg (show ¬(availET df).isEmpty = true by simp [h1]), if_neg h2,
      if_pos (show labels.length ≠ (trainXs lib df).length by
        rw [trainXs_length]; exact h3)]

/-- Witness for C2: a concrete trained detector, retrained with a
mismatched label vector, ends in the partially-overwritten state named by
the theorem. -/
theorem C2_training_not_atomic_witness :
    train_models libTriv trainedDet tblTwo [] =
      ({ trainedDet with feature_columns := get_feature_importance_columns,
                         scaler := ⟨some (trainMV tblTwo)⟩ }, some Err.indexError) :=
  (C2_training_not_atomic libTriv trainedDet tblTwo []).2
    (by with_unfolding_all decide) (by decide) (by decide)

/-- Counterexample for C2: a trained detector on which a failing training
call (label vector of mismatched length) leaves an observably different
state — the scaler has been refitted — refuting "the prior trained state
is left exactly as it was before the call". -/
theorem C2_training_not_atomic_counterexample :
    trainedDet.is_trained = true ∧
    (train_models libTriv trainedDet tblTwo []).2 = some Err.indexError ∧
    (train_models libTriv trainedDet tblTwo []).1 ≠ trainedDet := by
  refine ⟨rfl, ?_, ?_⟩ <;> with_unfolding_all decide

/-! ## Prediction after a successful training call -/

theorem trainMV_fst_length (df : FTable) : (trainMV df).1.length = (availET df).length := by
  simp [trainMV, scalerFit]

theorem predict_ok_after_train (lib : NumLib) (ml : MLCores) (d : Detector) (df : FTable)
    (labels : List ℚ) (d' : Detector)
    (hTrain : train_models lib d df labels = (d', none))
    (h0 : (0 : ℚ) ∈ labels) (h1 : ∃ l ∈ labels, l ≠ 0) :
    ∃ ps, predict_cme_probability lib ml d' df = .ok ps := by
  obtain ⟨hA, hNn, hLen, hT, hFc, hSc, hRf, hIf, hSv⟩ :=
    train_models_ok lib d df labels d' hTrain
  have hNorm := normalRows_ne_nil lib df labels hLen h0
  have hClasses := one_lt_classesOf labels h0 h1
  rw [hNorm] at hIf hSv
  simp only [Bool.false_eq_true, if_false] at hIf hSv
  have hScf : d'.scaler.fitp = some (trainMV df) := by rw [hSc]
  unfold predict_cme_probability
  rw [hT]
  rw [if_neg (by simp)]
  rw [hScf]
  dsimp only
  rw [hFc]
  rw [if_neg (show ¬(availET df).length ≠ (trainMV df).1.length by
    rw [trainMV_fst_length]; exact fun hne => hne rfl)]
  rw [if_neg hNn]
  rw [hIf, hSv, hRf]
  dsimp only
  rw [dif_pos hClasses]
  exact ⟨_, rfl⟩

/-- C3 (amended): prediction on an untrained detector raises the
not-trained error; after a successful training call whose labels contain
both a normal (0) row and a non-normal row — so every unsupervised model
received rows and the forest saw two classes — prediction on the same
feature table succeeds. -/
theorem C3_predict_lifecycle :
    (∀ (lib : NumLib) (ml : MLCores) (d : Detector) (df : FTable),
      d.is_trained = false →
        predict_cme_probability lib ml d df = .error .notTrained) ∧
    (∀ (lib : NumLib) (ml : MLCores) (d : Detector) (df : FTable) (labels : List ℚ)
      (d' : Detector), train_models lib d df labels = (d', none) →
      (0 : ℚ) ∈ labels → (∃ l ∈ labels, l ≠ 0) →
      ∃ ps, predict_cme_probability lib ml d' df = .ok ps) := by
  constructor
  · intro lib ml d df h
    unfold predict_cme_probability
    rw [if_pos h]
  · intro lib ml d df labels d' hTrain h0 h1
    exact predict_ok_after_train lib ml d df labels d' hTrain h0 h1

/-- Witness for C3: on a concrete two-row table, prediction before
training raises the not-trained error and prediction after a successful
two-class training call returns a probability vector. -/
theorem C3_predict_lifecycle_witness :
    predict_cme_probability libTriv mlZero initDetector tblTwo = .error .notTrained ∧
    ∃ ps, predict_cme_probability libTriv mlZero
      (train_models libTriv initDetector tblTwo [0, 1]).1 tblTwo = .ok ps :=
  ⟨C3_predict_lifecycle.1 libTriv mlZero initDetector tblTwo rfl,
    C3_predict_lifecycle.2 libTriv mlZero initDetector tblTwo [0, 1]
      (train_models libTriv initDetector tblTwo [0, 1]).1
      (by with_unfolding_all decide)
      (by simp)
      ⟨1, by simp, by norm_num⟩⟩

/-- Counterexample for C3: training with labels that are all 0 succeeds
(the trained flag flips), yet the very same prediction call then fails —
the forest saw a single class, so `predict_proba(...)[: , 1]` raises an
index error — refuting "after a successful call to the training operation,
the same prediction call on the same feature table succeeds without
raising". -/
theorem C3_predict_lifecycle_counterexample :
    (train_models libTriv initDetector tblTwo [0, 0]).2 = none ∧
    predict_cme_probability libTriv mlZero
      (train_models libTriv initDetector tblTwo [0, 0]).1 tblTwo =
      .error .indexError := by
  constructor <;> with_unfolding_all decide

/-- C1 (amended): a detector trained on labels with no normal (0) rows
leaves its unsupervised models unfitted, but they are not excluded from
fusion — every subsequent prediction call fails (it raises the not-fitted
error at the first unfitted model, or an earlier shape error), and no
feature table yields a fused probability. -/
theorem C1_unfitted_not_excluded (lib : NumLib) (ml : MLCores) (d : Detector)
    (df : FTable) (labels : List ℚ) (d' : Detector)
    (hTrain : train_models lib d df labels = (d', none))
    (hNoZero : ∀ l ∈ labels, l ≠ 0)
    (hUnfitted : d.iforest_fit = none) :
    ∀ (df2 : FTable) (ps : List ℚ), predict_cme_probability lib ml d' df2 ≠ .ok ps := by
  obtain ⟨hA, hNn, hLen, hT, hFc, hSc, hRf, hIf, hSv⟩ :=
    train_models_ok lib d df labels d' hTrain
  have hNil : normalRows lib df labels = [] := normalRows_eq_nil lib df labels hNoZero
  rw [hNil] at hIf
  simp only [List.isEmpty_nil, if_true] at hIf
  rw [hUnfitted] at hIf
  have hScf : d'.scaler.fitp = some (trainMV df) := by rw [hSc]
  intro df2 ps habs
  unfold predict_cme_probability at habs
  rw [hT, if_neg (by simp), hScf] at habs
  dsimp only at habs
  split at habs
  · exact Except.noConfusion habs
  · split at habs
    · exact Except.noConfusion habs
    · rw [hIf] at habs
      exact Except.noConfusion habs

/-- Witness for C1: a concrete fresh detector trained on all-anomalous
labels; the subsequent prediction on the training table itself does not
produce a probability vector. -/
theorem C1_unfitted_not_excluded_witness :
    predict_cme_probability libTriv mlZero
      (train_models libTriv initDetector tblTwo [1, 1]).1 tblTwo ≠ .ok [] :=
  C1_unfitted_not_excluded libTriv mlZero initDetector tblTwo [1, 1]
    (train_models libTriv initDetector tblTwo [1, 1]).1
    (by with_unfolding_all decide)
    (by intro l hl; fin_cases hl <;> norm_num)
    rfl tblTwo []

/-- Counterexample for C1: training with no normal rows succeeds and skips
the unsupervised fits, but prediction afterwards raises the not-fitted
error instead of fusing over the fitted models only — refuting "the fused
probability is the unweighted mean over only the models that were actually
fitted, and prediction does not fail". -/
theorem C1_unfitted_not_excluded_counterexample :
    (∀ l ∈ ([1, 1] : List ℚ), l ≠ 0) ∧
    (train_models libTriv initDetector tblTwo [1, 1]).2 = none ∧
    (train_models libTriv initDetector tblTwo [1, 1]).1.is_trained = true ∧
    (train_models libTriv initDetector tblTwo [1, 1]).1.iforest_fit = none ∧
    predict_cme_probability libTriv mlZero
      (train_models libTriv initDetector tblTwo [1, 1]).1 tblTwo =
      .error .notFitted := by
  refine ⟨by intro l hl; fin_cases hl <;> norm_num, ?_, ?_, ?_, ?_⟩ <;>
    with_unfolding_all decide

/-- C4 (amended): `engineer_features` mutates the caller's table in
exactly one way — its first statement converts the timestamp column to
datetime in place; every other field of every row and the row order are
preserved, and a table whose timestamps are already datetime-typed is left
unchanged. -/
theorem C4_caller_mutation (lib : NumLib) (p : PTable) :
    (engineer_features lib p).1 =
      p.map (fun r => { r with timestamp := parseTs r.timestamp }) ∧
    ((∀ r ∈ p, parseTs r.timestamp = r.timestamp) → (engineer_features lib p).1 = p) := by
  refine ⟨rfl, fun h => ?_⟩
  show p.map (fun r => { r with timestamp := parseTs r.timestamp }) = p
  have hid : ∀ r ∈ p, ({ r with timestamp := parseTs r.timestamp } : PRow) = id r := by
    intro r hr
    have hts := h r hr
    cases r
    simp_all
  rw [List.map_congr_left hid, List.map_id]

/-- Witness for C4: a caller table whose timestamp cell is already
datetime-typed comes back unchanged. -/
theorem C4_caller_mutation_witness :
    (engineer_features libTriv dtRowTable).1 = dtRowTable :=
  (C4_caller_mutation libTriv dtRowTable).2
    (by intro r hr; simp only [dtRowTable, List.mem_singleton] at hr; subst hr; rfl)

/-- Counterexample for C4: a caller table whose timestamp cell is not yet
datetime-typed is mutated by the call — its timestamp column is parsed in
place — refuting "the caller's table is unchanged" for every input. -/
theorem C4_caller_mutation_counterexample :
    (engineer_features libTriv rawRowTable).1 ≠ rawRowTable := by
  with_unfolding_all decide

/-- C9: `engineer_features` is deterministic — it is a pure function of
the input table (and the fixed configuration), so equal inputs give equal
outputs; its embedding needed no random source, unlike event creation. -/
theorem C9_engineer_deterministic (lib : NumLib) (p q : PTable) (h : p = q) :
    engineer_features lib p = engineer_features lib q := by rw [h]

/-- Witness for C9: two runs on the same concrete table coincide. -/
theorem C9_engineer_deterministic_witness :
    engineer_features libTriv dtRowTable = engineer_features libTriv dtRowTable :=
  C9_engineer_deterministic libTriv dtRowTable dtRowTable rfl

/-! ## Uniqueness of the Moore-Penrose pseudo-inverse -/

theorem mul3_assoc (A B C : Mat3) : mul3 (mul3 A B) C = mul3 A (mul3 B C) := by
  cases A; cases B; cases C
  simp only [mul3, Mat3.mk.injEq]
  refine ⟨?_, ?_, ?_, ?_, ?_, ?_, ?_, ?_, ?_⟩ <;> ring

theorem transpose3_mul3 (A B : Mat3) :
    transpose3 (mul3 A B) = mul3 (transpose3 B) (transpose3 A) := by
  cases A; cases B
  simp only [mul3, transpose3, Mat3.mk.injEq]
  refine ⟨?_, ?_, ?_, ?_, ?_, ?_, ?_, ?_, ?_⟩ <;> ring

/-- The Moore-Penrose pseudo-inverse is unique: any two matrices
satisfying the four Penrose identities for the same matrix coincide — so
"the pseudo-inverted sample covariance" is well defined. -/
theorem pinv_unique (A M N : Mat3) (hM : isPinv A M) (hN : isPinv A N) : M = N := by
  obtain ⟨hM1, hM2, hM3, hM4⟩ := hM
  obtain ⟨hN1, hN2, hN3, hN4⟩ := hN
  have hAT : transpose3 A = mul3 (transpose3 A) (mul3 (transpose3 N) (transpose3 A)) := by
    conv_lhs => rw [← hN1]
    rw [transpose3_mul3, transpose3_mul3]
  have hAT2 : transpose3 A = mul3 (transpose3 A) (mul3 (transpose3 M) (transpose3 A)) := by
    conv_lhs => rw [← hM1]
    rw [transpose3_mul3, transpose3_mul3]
  have e1 : M = mul3 M (mul3 A N) := by
    calc M = mul3 (mul3 M A) M := hM2.symm
      _ = mul3 M (mul3 A M) := mul3_assoc M A M
      _ = mul3 M (transpose3 (mul3 A M)) := by rw [hM3]
      _ = mul3 M (mul3 (transpose3 M) (transpose3 A)) := by rw [transpose3_mul3]
      _ = mul3 M (mul3 (transpose3 M)
            (mul3 (transpose3 A) (mul3 (transpose3 N) (transpose3 A)))) := by
          conv_lhs => rw [hAT]
      _ = mul3 M (mul3 (mul3 (transpose3 M) (transpose3 A))
            (mul3 (transpose3 N) (transpose3 A))) := by
          rw [mul3_assoc]
      _ = mul3 M (mul3 (transpose3 (mul3 A M)) (transpose3 (mul3 A N))) := by
          rw [transpose3_mul3, transpose3_mul3]
      _ = mul3 M (mul3 (mul3 A M) (mul3 A N)) := by rw [hM3, hN3]
      _ = mul3 (mul3 M (mul3 A M)) (mul3 A N) :=
          (mul3_assoc M (mul3 A M) (mul3 A N)).symm
      _ = mul3 M (mul3 A N) := by rw [← mul3_assoc M A M, hM2]
  have e2 : N = mul3 M (mul3 A N) := by
    calc N = mul3 (mul3 N A) N := hN2.symm
      _ = mul3 (transpose3 (mul3 N A)) N := by rw [hN4]
      _ = mul3 (mul3 (transpose3 A) (transpose3 N)) N := by rw [transpose3_mul3]
      _ = mul3 (mul3 (mul3 (transpose3 A) (mul3 (transpose3 M) (transpose3 A)))
            (transpose3 N)) N := by
          conv_lhs => rw [hAT2]
      _ = mul3 (mul3 (mul3 (mul3 (transpose3 A) (transpose3 M)) (transpose3 A))
            (transpose3 N)) N := by
          rw [← mul3_assoc (transpose3 A) (transpose3 M) (transpose3 A)]
      _ = mul3 (mul3 (mul3 (transpose3 A) (transpose3 M))
            (mul3 (transpose3 A) (transpose3 N))) N := by
          rw [mul3_assoc (mul3 (transpose3 A) (transpose3 M)) (transpose3 A) (transpose3 N)]
      _ = mul3 (mul3 (transpose3 (mul3 M A)) (transpose3 (mul3 N A))) N := by
          rw [transpose3_mul3, transpose3_mul3]
      _ = mul3 (mul3 (mul3 M A) (mul3 N A)) N := by rw [hM4, hN4]
      _ = mul3 (mul3 M A) (mul3 (mul3 N A) N) := mul3_assoc (mul3 M A) (mul3 N A) N
      _ = mul3 (mul3 M A) N := by rw [hN2]
      _ = mul3 M (mul3 A N) := mul3_assoc M A N
  exact e1.trans e2.symm

/-- C6 (amended): the flux Mahalanobis feature is zero-filled for all rows
whenever the table has AT MOST as many rows as there are flux columns (the
source's guard is the strict `len(df) > len(flux_columns)`, not "fewer
than"); for every table with strictly more rows than flux columns the
feature equals the Mahalanobis distance of each row's flux vector from the
sample mean under the (unique) Moore-Penrose pseudo-inverse of the sample
covariance — singular covariance included — assuming only that the
library's `pinv` routine returns a matrix satisfying the Penrose
identities, its documented behavior.  The computation is total, so no
error is raised in either case (the source's `except` fallback is
unreachable for finite data). -/
theorem C6_mahalanobis (lib : NumLib) (rows : List Vec3) :
    (rows.length ≤ 3 → mahalanobisColumn lib rows = rows.map (fun _ => 0)) ∧
    (3 < rows.length → isPinv (cov3 rows) (lib.pinvA (cov3 rows)) →
      ∀ M, isPinv (cov3 rows) M →
        mahalanobisColumn lib rows = rows.map (fun r =>
          lib.sqrtA (quadForm M ⟨r.x - (meanVec3 rows).x, r.y - (meanVec3 rows).y,
            r.z - (meanVec3 rows).z⟩))) := by
  constructor
  · intro h
    unfold mahalanobisColumn
    rw [if_neg (by omega)]
  · intro h hlib M hM
    have hMe : M = lib.pinvA (cov3 rows) :=
      pinv_unique (cov3 rows) M (lib.pinvA (cov3 rows)) hM hlib
    subst hMe
    unfold mahalanobisColumn
    rw [if_pos h]

/-- Witness for C6: both regimes of the pseudo-inverse on tables with more
rows than flux columns — a nonsingular (diagonal) covariance and a
singular rank-one covariance — with the Penrose identities of the library
routine and of the named pseudo-inverses checked by evaluation. -/
theorem C6_mahalanobis_witness :
    (mahalanobisColumn libTriv rows4 = rows4.map (fun r =>
      libTriv.sqrtA (quadForm invRows4 ⟨r.x - (meanVec3 rows4).x,
        r.y - (meanVec3 rows4).y, r.z - (meanVec3 rows4).z⟩))) ∧
    (mahalanobisColumn libTriv rows4s = rows4s.map (fun r =>
      libTriv.sqrtA (quadForm pinvSing ⟨r.x - (meanVec3 rows4s).x,
        r.y - (meanVec3 rows4s).y, r.z - (meanVec3 rows4s).z⟩))) :=
  ⟨(C6_mahalanobis libTriv rows4).2 (by with_unfolding_all decide)
      (by with_unfolding_all decide) invRows4 (by with_unfolding_all decide),
    (C6_mahalanobis libTriv rows4s).2 (by with_unfolding_all decide)
      (by with_unfolding_all decide) pinvSing (by with_unfolding_all decide)⟩

/-- Counterexample for C6: a three-row flux table — exactly as many rows
as flux columns, not fewer.  Its sample covariance has a Moore-Penrose
pseudo-inverse (the Penrose identities are checked), and the distances
the claim mandates are `4/3` per row, yet the code zero-fills the column
because its guard requires strictly more rows than flux columns. -/
theorem C6_mahalanobis_counterexample :
    rows3.length = 3 ∧
    isPinv (cov3 rows3) pinvRows3 ∧
    mahalanobisColumn libTriv rows3 = [0, 0, 0] ∧
    rows3.map (fun r => libTriv.sqrtA (quadForm pinvRows3
      ⟨r.x - (meanVec3 rows3).x, r.y - (meanVec3 rows3).y, r.z - (meanVec3 rows3).z⟩))
      = [4/3, 4/3, 4/3] ∧
    ([0, 0, 0] : List ℚ) ≠ [4/3, 4/3, 4/3] := by
  refine ⟨rfl, ?_, ?_, ?_, ?_⟩ <;> with_unfolding_all decide

/-! ## Peak selection -/

theorem getD_map_scores (scores : List ℚ) (indices : List ℕ) (jj : ℕ)
    (hjj : jj < indices.length) :
    (indices.map (fun i => scores.getD i 0)).getD jj 0 =
      scores.getD (indices.getD jj 0) 0 := by
  rw [List.getD_eq_getElem _ _ (by simpa using hjj), List.getElem_map,
    List.getD_eq_getElem _ _ hjj]

/-- `indices[np.argmax(scores[indices])]` selects a member of the group
carrying the maximum score; among equal-score members it is the smallest
index, provided the group is strictly ascending. -/
theorem argmax_select (scores : List ℚ) (indices : List ℕ)
    (hne : indices ≠ []) (hsorted : indices.Pairwise (· < ·)) :
    indices.getD (argmaxFirst (indices.map (fun i => scores.getD i 0))) 0 ∈ indices ∧
    (∀ j ∈ indices, scores.getD j 0 ≤
      scores.getD (indices.getD (argmaxFirst (indices.map (fun i => scores.getD i 0))) 0) 0) ∧
    (∀ j ∈ indices, scores.getD j 0 =
      scores.getD (indices.getD (argmaxFirst (indices.map (fun i => scores.getD i 0))) 0) 0 →
      indices.getD (argmaxFirst (indices.map (fun i => scores.getD i 0))) 0 ≤ j) := by
  have hmne : indices.map (fun i => scores.getD i 0) ≠ [] := by simpa using hne
  have hk : argmaxFirst (indices.map (fun i => scores.getD i 0)) < indices.length := by
    have := argmaxFirst_lt_length _ hmne
    simpa using this
  refine ⟨?_, ?_, ?_⟩
  · rw [List.getD_eq_getElem _ _ hk]
    exact List.getElem_mem hk
  · intro j hj
    obtain ⟨pj, hpj, hpje⟩ := List.mem_iff_getElem.mp hj
    have h1 := argmaxFirst_le (indices.map (fun i => scores.getD i 0)) pj (by simpa using hpj)
    rw [getD_map_scores scores indices pj hpj, getD_map_scores scores indices _ hk] at h1
    rw [List.getD_eq_getElem _ _ hpj, hpje] at h1
    exact h1
  · intro j hj hEq
    by_contra hgt
    push_neg at hgt
    obtain ⟨pj, hpj, hpje⟩ := List.mem_iff_getElem.mp hj
    rcases lt_trichotomy pj (argmaxFirst (indices.map (fun i => scores.getD i 0)))
      with hc | hc | hc
    · have h1 := argmaxFirst_first (indices.map (fun i => scores.getD i 0)) pj hc
      rw [getD_map_scores scores indices pj hpj, getD_map_scores scores indices _ hk] at h1
      rw [List.getD_eq_getElem _ _ hpj, hpje] at h1
      exact absurd hEq (ne_of_lt h1)
    · have hpeq : indices.getD (argmaxFirst (indices.map (fun i => scores.getD i 0))) 0
          = j := by
        rw [← hc] at hk ⊢
        rw [List.getD_eq_getElem _ _ hpj, hpje]
      omega
    · have hcmp := List.pairwise_iff_getElem.mp hsorted _ pj hk hpj hc
      rw [hpje] at hcmp
      rw [List.getD_eq_getElem _ _ hk] at hgt
      omega

/-- C8: for a nonempty, strictly ascending group of in-range indices, event
creation succeeds; the event is characterized from the peak — the group
member of maximum score, ties broken to the lowest index — with type and
width given by the velocity/flux rule (`halo` at width exactly 360,
`partial halo` in `[120, 359)`, otherwise in `[20, 119)`), confidence
equal to the peak's score, and magnitude `min(10, velocity/100)`. -/
theorem C8_peak_event (rng : Rng) (df : FTable) (scores : List ℚ) (indices : List ℕ)
    (hne : indices ≠ [])
    (hsorted : indices.Pairwise (· < ·))
    (hsc : ∀ i ∈ indices, i < scores.length)
    (hn : ∀ i ∈ indices, i < df.n)
    (hv : "velocity" ∈ df.cols) (hp : "proton_flux" ∈ df.cols)
    (hu : ∀ a b : ℚ, a < b → a ≤ rng.uniform a b ∧ rng.uniform a b < b) :
    ∃ ev, create_cme_event rng df scores indices = .ok ev ∧
      ∃ peak ∈ indices,
        (∀ j ∈ indices, scores.getD j 0 ≤ scores.getD peak 0) ∧
        (∀ j ∈ indices, scores.getD j 0 = scores.getD peak 0 → peak ≤ j) ∧
        ev.confidence = scores.getD peak 0 ∧
        ev.velocity = df.col "velocity" peak ∧
        ev.magnitude = min 10 (df.col "velocity" peak / 100) ∧
        ev.timestamp = df.ts peak ∧
        ((800 < df.col "velocity" peak ∧ 2000 < df.col "proton_flux" peak) →
          ev.ctype = CmeType.halo ∧ ev.width = 360) ∧
        (¬(800 < df.col "velocity" peak ∧ 2000 < df.col "proton_flux" peak) →
          (600 < df.col "velocity" peak ∧ 1500 < df.col "proton_flux" peak) →
          ev.ctype = CmeType.pHalo ∧ 120 ≤ ev.width ∧ ev.width < 359) ∧
        (¬(800 < df.col "velocity" peak ∧ 2000 < df.col "proton_flux" peak) →
          ¬(600 < df.col "velocity" peak ∧ 1500 < df.col "proton_flux" peak) →
          ev.ctype = CmeType.nonHalo ∧ 20 ≤ ev.width ∧ ev.width < 119) := by
  obtain ⟨hpmem, hmax, htie⟩ := argmax_select scores indices hne hsorted
  have hvEq : fget df "velocity" 400
      (indices.getD (argmaxFirst (indices.map (fun i => scores.getD i 0))) 0) =
      df.col "velocity"
        (indices.getD (argmaxFirst (indices.map (fun i => scores.getD i 0))) 0) :=
    if_pos hv
  have hpEq : fget df "proton_flux" 1000
      (indices.getD (argmaxFirst (indices.map (fun i => scores.getD i 0))) 0) =
      df.col "proton_flux"
        (indices.getD (argmaxFirst (indices.map (fun i => scores.getD i 0))) 0) :=
    if_pos hp
  unfold create_cme_event
  rw [if_neg (show ¬indices.isEmpty = true by simp [isEmpty_false_of_ne_nil hne])]
  rw [if_neg (show ¬(indices.any fun i => decide (scores.length ≤ i)) = true by
    simp only [List.any_eq_true, not_exists, not_and, decide_eq_true_eq]
    push_neg
    intro i hi
    exact hsc i hi)]
  rw [if_neg (show ¬df.n ≤
      indices.getD (argmaxFirst (indices.map (fun i => scores.getD i 0))) 0 by
    push_neg
    exact hn _ hpmem)]
  refine ⟨_, rfl, indices.getD (argmaxFirst (indices.map (fun i => scores.getD i 0))) 0,
    hpmem, hmax, htie, rfl, ?_, ?_, rfl, ?_, ?_, ?_⟩
  · exact hvEq
  · show min 10 (fget df "velocity" 400 _ / 100) = _
    rw [hvEq]
  · intro hc1
    rw [← hvEq, ← hpEq] at hc1
    show (if _ then _ else _ : CmeType × ℚ).1 = _ ∧ (if _ then _ else _ : CmeType × ℚ).2 = _
    rw [if_pos hc1]
    exact ⟨rfl, rfl⟩
  · intro hc1 hc2
    rw [← hvEq, ← hpEq] at hc1 hc2
    show (if _ then _ else _ : CmeType × ℚ).1 = _ ∧ _
    rw [if_neg hc1, if_pos hc2]
    obtain ⟨hlo, hhi⟩ := hu 120 359 (by norm_num)
    exact ⟨rfl, hlo, hhi⟩
  · intro hc1 hc2
    rw [← hvEq, ← hpEq] at hc1 hc2
    show (if _ then _ else _ : CmeType × ℚ).1 = _ ∧ _
    rw [if_neg hc1, if_neg hc2]
    obtain ⟨hlo, hhi⟩ := hu 20 119 (by norm_num)
    exact ⟨rfl, hlo, hhi⟩

/-- Witness for C8: the characterization instantiated on a concrete
two-index group over the two-row table, with the lower-end sampler. -/
theorem C8_peak_event_witness :
    ∃ ev, create_cme_event rngLo tblTwo [1/2, 9/10] [0, 1] = .ok ev ∧
      ∃ peak ∈ ([0, 1] : List ℕ),
        (∀ j ∈ ([0, 1] : List ℕ), ([1/2, 9/10] : List ℚ).getD j 0 ≤
          ([1/2, 9/10] : List ℚ).getD peak 0) ∧
        (∀ j ∈ ([0, 1] : List ℕ), ([1/2, 9/10] : List ℚ).getD j 0 =
          ([1/2, 9/10] : List ℚ).getD peak 0 → peak ≤ j) ∧
        ev.confidence = ([1/2, 9/10] : List ℚ).getD peak 0 ∧
        ev.velocity = tblTwo.col "velocity" peak ∧
        ev.magnitude = min 10 (tblTwo.col "velocity" peak / 100) ∧
        ev.timestamp = tblTwo.ts peak ∧
        ((800 < tblTwo.col "velocity" peak ∧ 2000 < tblTwo.col "proton_flux" peak) →
          ev.ctype = CmeType.halo ∧ ev.width = 360) ∧
        (¬(800 < tblTwo.col "velocity" peak ∧ 2000 < tblTwo.col "proton_flux" peak) →
          (600 < tblTwo.col "velocity" peak ∧ 1500 < tblTwo.col "proton_flux" peak) →
          ev.ctype = CmeType.pHalo ∧ 120 ≤ ev.width ∧ ev.width < 359) ∧
        (¬(800 < tblTwo.col "velocity" peak ∧ 2000 < tblTwo.col "proton_flux" peak) →
          ¬(600 < tblTwo.col "velocity" peak ∧ 1500 < tblTwo.col "proton_flux" peak) →
          ev.ctype = CmeType.nonHalo ∧ 20 ≤ ev.width ∧ ev.width < 119) :=
  C8_peak_event rngLo tblTwo [1/2, 9/10] [0, 1] (by decide) (by decide)
    (by decide) (by decide) (by decide) (by decide)
    (fun a b h => ⟨le_refl a, h⟩)

end CME
